import Mathlib

/-!
# Verification of the POD-OCR field-extraction pipeline and log reconciler

Shallow embedding of the deterministic core of the repository:

* the token-cleaning / classification heuristics shared by the four OCR
  back-end wrappers (`src/paddleocr/pod_ocr.py`, `src/got-ocr/pod_ocr.py`,
  `src/easyocr/pod_ocr.py`, `src/trocr/pod_ocr.py`);
* the `ExtractionResult` assembly including its error and timeout paths;
* the brace-counting log scanner and its downstream consumers
  (`src/scripts/generate_report_from_log.py`, `src/scripts/fix_log.py`,
  resume indices in `src/llm/run_classification_batch.py` and
  `src/llm/run_combined_benchmark.py`).

Python strings are modelled as Lean `String`/`List Char`; the string
predicates (`isupper`, `isalpha`, `strip`, regex character classes) are
modelled at ASCII granularity, matching the ASCII-only data this pipeline
manipulates.  Floating-point confidences and timings are modelled as `ℚ`.
External effects (the OCR engine call, `time.time()`) are oracle inputs.
-/

namespace PodOcr

/-! ## ASCII string helpers (models of the Python string methods used) -/

/-- The whitespace characters of Python `str.strip()` / regex `\s` (ASCII part). -/
def wsChar (c : Char) : Bool :=
  c = ' ' || c = '\t' || c = '\n' || c = '\r' || c = '\x0b' || c = '\x0c'

/-- The punctuation set stripped by the wrappers: `text.strip('.,;:()[]"')`. -/
def punctChars : List Char :=
  ['.', ',', ';', ':', '(', ')', '\x5b', '\x5d', '"']

/-- Strip characters satisfying `p` from both ends (model of `str.strip(chars)`). -/
def stripBoth (p : Char → Bool) (cs : List Char) : List Char :=
  ((cs.dropWhile p).reverse.dropWhile p).reverse

/-- `text.strip('.,;:()[]"')` as used on every token before classification. -/
def cleanToken (s : String) : String :=
  ⟨stripBoth (fun c => punctChars.contains c) s.data⟩

/-- `text.strip()` (whitespace strip, both ends). -/
def pyStrip (s : String) : String :=
  ⟨stripBoth wsChar s.data⟩

/-- Model of `clean.isupper() and clean.isalpha()` for ASCII text: non-empty
and every character an uppercase basic-latin letter. -/
def isCapsToken (s : String) : Bool :=
  !s.data.isEmpty && s.data.all Char.isUpper

/-- Python `str.split()` with no argument: split on whitespace runs, dropping
empty fragments. -/
def pySplit (s : String) : List String :=
  (s.split (fun c => wsChar c)).filter (fun t => t ≠ "")

/-- `' '.join(ws)`. -/
def joinSpaces (ws : List String) : String :=
  String.intercalate " " ws

/-- Does `pat` occur as a contiguous sublist of `s`? (substring test). -/
def containsSub (pat : List Char) : List Char → Bool
  | [] => pat.isEmpty
  | c :: tail => pat.isPrefixOf (c :: tail) || containsSub pat tail

/-- Python `str.lower()` (ASCII). -/
def lowerStr (s : String) : String := ⟨s.data.map Char.toLower⟩

/-- Python `str.upper()` (ASCII). -/
def upperStr (s : String) : String := ⟨s.data.map Char.toUpper⟩

/-! ## Field classifiers (`parse_street_number`, `parse_unit_number`,
`parse_street_name`) translated from `src/paddleocr/pod_ocr.py` (identical
text in `src/got-ocr/pod_ocr.py`; the easyocr/trocr variant of
`parse_street_name` differs and is modelled separately below). -/

/-- Full-match test for `^\d{1,5}[A-Z]?$` with `re.IGNORECASE`. -/
def streetNumShape (cs : List Char) : Bool :=
  let ds := cs.takeWhile Char.isDigit
  let rest := cs.drop ds.length
  decide (1 ≤ ds.length) && decide (ds.length ≤ 5) &&
    (rest.isEmpty || (decide (rest.length = 1) && rest.all Char.isAlpha))

/-- `parse_street_number`: `re.match(r'^(\d{1,5}[A-Z]?)$', text.strip(), re.IGNORECASE)`,
returning the matched group (the whole stripped text) on success. -/
def parse_street_number (text : String) : Option String :=
  let t := pyStrip text
  if streetNumShape t.data then some t else none

/-- Case-insensitive literal match of `kw` as a prefix of `cs`; returns the
matched span (original characters) and the remainder. -/
def matchCI : List Char → List Char → Option (List Char × List Char)
  | [], cs => some ([], cs)
  | _ :: _, [] => none
  | k :: ks, c :: cs =>
    if k.toLower = c.toLower then
      match matchCI ks cs with
      | some (m, r) => some (c :: m, r)
      | none => none
    else none

/-- One attempt of the unit-number pattern `(Apt|Unit|#|Suite)\s*(\d+[A-Z]?)`
at the current position, for one keyword alternative: the keyword
(case-insensitive), then a greedy whitespace run, then at least one digit
(greedy), then an optional letter; returns the whole matched span. -/
def unitTryKw (kw : String) (cs : List Char) : Option (List Char) :=
  match matchCI kw.data cs with
  | none => none
  | some (kwSpan, r0) =>
    let wsRun := r0.takeWhile wsChar
    let r1 := r0.drop wsRun.length
    let digs := r1.takeWhile Char.isDigit
    let r2 := r1.drop digs.length
    if digs.isEmpty then none
    else
      let suffix : List Char :=
        match r2 with
        | c :: _ => if c.isAlpha then [c] else []
        | [] => []
      some (kwSpan ++ wsRun ++ digs ++ suffix)

/-- All four alternatives, in the pattern's order, at the current position. -/
def unitTryAt (cs : List Char) : Option (List Char) :=
  match unitTryKw "Apt" cs with
  | some m => some m
  | none =>
    match unitTryKw "Unit" cs with
    | some m => some m
    | none =>
      match unitTryKw "#" cs with
      | some m => some m
      | none => unitTryKw "Suite" cs

/-- Leftmost match: scan positions left to right (model of `re.search`). -/
def unitSearch : List Char → Option (List Char)
  | [] => none
  | c :: cs =>
    match unitTryAt (c :: cs) with
    | some m => some m
    | none => unitSearch cs

/-- `parse_unit_number`: `re.search(r'(Apt|Unit|#|Suite)\s*(\d+[A-Z]?)', text,
re.IGNORECASE)`, returning `match.group(0)` (the entire matched span). -/
def parse_unit_number (text : String) : Option String :=
  (unitSearch text.data).map (fun m => ⟨m⟩)

/-- The fixed street-type word list of `parse_street_name`. -/
def streetTypeWords : List String :=
  ["Street", "St", "Avenue", "Ave", "Road", "Rd", "Drive", "Dr", "Lane", "Ln",
   "Court", "Ct", "Boulevard", "Blvd", "Way", "Place", "Pl", "Circle", "Cir",
   "Close", "Terrace", "Ter", "Trail", "Trl", "Park", "Parkway", "Pkwy"]

/-- `re.search(street_types, text, re.IGNORECASE)`: some street-type word
occurs in `text` as a case-insensitive substring. -/
def containsStreetType (text : String) : Bool :=
  streetTypeWords.any (fun w => containsSub (lowerStr w).data (lowerStr text).data)

/-- Full-match test for `^[A-Z][a-z]{2,}$` (Title case, at least 3 letters). -/
def titleShape (cs : List Char) : Bool :=
  match cs with
  | c :: rest => c.isUpper && decide (2 ≤ rest.length) && rest.all Char.isLower
  | [] => false

/-- Full-match test for `^[A-Z]{3,}$` (all caps, at least 3 letters). -/
def capsShape (cs : List Char) : Bool :=
  decide (3 ≤ cs.length) && cs.all Char.isUpper

/-- Full-match test for `^[A-Z][A-Z\s]+[A-Z]$` (all-caps phrase). -/
def capsPhraseShape (cs : List Char) : Bool :=
  match cs with
  | c :: rest =>
    c.isUpper && decide (2 ≤ rest.length) &&
      rest.dropLast.all (fun x => x.isUpper || wsChar x) &&
      (match rest.getLast? with
       | some l => l.isUpper
       | none => false)
  | [] => false

/-- The `excluded` set literal of the paddleocr/got-ocr `parse_street_name`:
both the all-caps and the Title-case spellings appear in the source. -/
def excludedWords : List String :=
  ["THE", "DEAR", "CUSTOMER", "PROOF", "DELIVERY", "TRACKING", "NUMBER",
   "WEIGHT", "SERVICE", "SHIPPED", "BILLED", "DELIVERED", "LEFT",
   "REFERENCE", "PLEASE", "PRINT", "SINCERELY", "FRONT", "DOOR",
   "The", "Dear", "Customer", "Proof", "Delivery", "Tracking", "Number",
   "Weight", "Service", "Shipped", "Billed", "Delivered", "Left",
   "Reference", "Please", "Print", "Sincerely", "Front", "Door"]

/-- The stop-word set in its all-caps spelling (used to state the
case-insensitive formulation of the exclusion test). -/
def upperStopWords : List String :=
  ["THE", "DEAR", "CUSTOMER", "PROOF", "DELIVERY", "TRACKING", "NUMBER",
   "WEIGHT", "SERVICE", "SHIPPED", "BILLED", "DELIVERED", "LEFT",
   "REFERENCE", "PLEASE", "PRINT", "SINCERELY", "FRONT", "DOOR"]

/-- The stop-word set in its Title-case spelling (the easyocr/trocr variant
of `parse_street_name` carries only these). -/
def titleStopWords : List String :=
  ["The", "Dear", "Customer", "Proof", "Delivery", "Tracking", "Number",
   "Weight", "Service", "Shipped", "Billed", "Delivered", "Left",
   "Reference", "Please", "Print", "Sincerely", "Front", "Door"]

/-- `parse_street_name` of `src/paddleocr/pod_ocr.py` / `src/got-ocr/pod_ocr.py`:
street-type substring, else Title-case / all-caps / all-caps-phrase proper
noun not in the exclusion set. -/
def parse_street_name (text : String) : Option String :=
  if containsStreetType text then some (pyStrip text)
  else
    let normalized := pyStrip text
    if (titleShape normalized.data || capsShape normalized.data ||
        capsPhraseShape normalized.data) &&
       !(excludedWords.contains normalized) &&
       !(excludedWords.contains (upperStr normalized)) then
      some normalized
    else none

/-- `parse_street_name` of `src/easyocr/pod_ocr.py` / `src/trocr/pod_ocr.py`:
street-type substring, else only the Title-case shape, with only the
Title-case exclusion list. -/
def parse_street_name_easy (text : String) : Option String :=
  if containsStreetType text then some (pyStrip text)
  else
    let normalized := pyStrip text
    if titleShape normalized.data && !(titleStopWords.contains normalized) then
      some normalized
    else none

/-! ## Token normalization: the ALL-CAPS run merge of paddleocr/got-ocr -/

/-- The "first pass" loop of `extract_numbers` in `src/paddleocr/pod_ocr.py`
(lines 169-182) and `src/got-ocr/pod_ocr.py` (lines 262-276), carrying the
pending `current_caps_words` run: each token is punctuation-stripped; runs of
all-caps alphabetic tokens are joined with spaces, other tokens flush the
pending run and pass through (stripped). -/
def combineCaps : List String → List String → List String
  | [], run => if run.isEmpty then [] else [joinSpaces run]
  | t :: ts, run =>
    let c := cleanToken t
    if isCapsToken c then combineCaps ts (run ++ [c])
    else (if run.isEmpty then [] else [joinSpaces run]) ++ c :: combineCaps ts []

/-- The combined candidate sequence (`combined_texts`). -/
def combinedTexts (ts : List String) : List String := combineCaps ts []

/-- Specification-level description of the run merge (from the spec's words):
each maximal run of all-caps alphabetic cleaned tokens is replaced, at the
run's position, by the run joined with single spaces; other cleaned tokens
pass through.  Operates on already-cleaned tokens. -/
def mergeRuns : List String → List String
  | [] => []
  | x :: xs =>
    if isCapsToken x then
      joinSpaces ((x :: xs).takeWhile isCapsToken) :: mergeRuns ((x :: xs).dropWhile isCapsToken)
    else x :: mergeRuns xs
termination_by l => l.length
decreasing_by
  · simp only [List.dropWhile_cons_of_pos, *]
    exact Nat.lt_succ_of_le ((List.dropWhile_sublist _).length_le)
  · simp

/-! ## The classification loops of the four wrappers -/

/-- Accumulator of the classification loop: street number, unit number, and
collected street-name fragments. -/
structure ClassAcc where
  sn : Option String
  un : Option String
  names : List String
deriving Repr, DecidableEq

/-- Initial accumulator. -/
def ClassAcc.init : ClassAcc := ⟨none, none, []⟩

/-- The detached-suffix check of paddleocr lines 193-197 / got-ocr lines
287-291: if the immediately following candidate, punctuation-stripped, is a
single alphabetic character, append it to the found street number. -/
def suffixAttach (n : String) (rest : List String) : String :=
  match rest with
  | [] => n
  | nxt :: _ =>
    let c := cleanToken nxt
    if decide (c.length = 1) && c.data.all Char.isAlpha then n ++ c else n

/-- The per-candidate loop of paddleocr `extract_numbers` (lines 190-203):
first street-number match wins (with suffix attachment), first unit-number
match wins, street-name fragments are collected in encounter order. -/
def classifyPaddle : List String → ClassAcc → ClassAcc
  | [], acc => acc
  | t :: rest, acc =>
    let a1 : ClassAcc :=
      if acc.sn.isNone then
        match parse_street_number t with
        | some n => { acc with sn := some (suffixAttach n rest) }
        | none => acc
      else acc
    let a2 : ClassAcc := if a1.un.isNone then { a1 with un := parse_unit_number t } else a1
    let a3 : ClassAcc :=
      match parse_street_name t with
      | some nm => { a2 with names := a2.names ++ [nm] }
      | none => a2
    classifyPaddle rest a3

/-- The per-candidate loop of got-ocr `_extract_numbers_impl` (lines 278-309):
tokens are punctuation-stripped again, the street number gets the suffix
check (and a second, redundant, plain re-check), street-name fragments are
collected; the unit number is never assigned inside this loop. -/
def classifyGot : List String → ClassAcc → ClassAcc
  | [], acc => acc
  | t :: rest, acc =>
    let c := cleanToken t
    let a1 : ClassAcc :=
      if acc.sn.isNone then
        match parse_street_number c with
        | some n => { acc with sn := some (suffixAttach n rest) }
        | none => acc
      else acc
    let a2 : ClassAcc :=
      if a1.sn.isNone then
        match parse_street_number c with
        | some n => { a1 with sn := some n }
        | none => a1
      else a1
    let a3 : ClassAcc :=
      match parse_street_name c with
      | some nm => { a2 with names := a2.names ++ [nm] }
      | none => a2
    classifyGot rest a3

/-- The per-token loop of easyocr `extract_numbers` (lines 161-169): raw
tokens, no punctuation strip, no run merge, no suffix attachment, and the
Title-case-only street-name variant. -/
def classifyEasy : List String → ClassAcc → ClassAcc
  | [], acc => acc
  | t :: rest, acc =>
    let a1 : ClassAcc :=
      if acc.sn.isNone then
        match parse_street_number t with
        | some n => { acc with sn := some n }
        | none => acc
      else acc
    let a2 : ClassAcc := if a1.un.isNone then { a1 with un := parse_unit_number t } else a1
    let a3 : ClassAcc :=
      match parse_street_name_easy t with
      | some nm => { a2 with names := a2.names ++ [nm] }
      | none => a2
    classifyEasy rest a3

/-- The per-token loop of trocr `extract_numbers` (lines 130-142): tokens are
punctuation-stripped; the unit number is additionally sought per token when
the full-text search found none; Title-case-only street names. -/
def classifyTrocr : List String → ClassAcc → ClassAcc
  | [], acc => acc
  | t :: rest, acc =>
    let c := cleanToken t
    let a1 : ClassAcc :=
      if acc.sn.isNone then
        match parse_street_number c with
        | some n => { acc with sn := some n }
        | none => acc
      else acc
    let a2 : ClassAcc := if a1.un.isNone then { a1 with un := parse_unit_number c } else a1
    let a3 : ClassAcc :=
      match parse_street_name_easy c with
      | some nm => { a2 with names := a2.names ++ [nm] }
      | none => a2
    classifyTrocr rest a3

/-- `' '.join(street_names)` when non-empty, else the field stays null. -/
def joinNames (names : List String) : Option String :=
  if names.isEmpty then none else some (joinSpaces names)

/-! ## ExtractionResult assembly -/

/-- Banker's rounding to an integer (model of Python `round` on the exact
rational value; ties go to the even integer). -/
def bankersRound (q : ℚ) : ℤ :=
  let f := ⌊q⌋
  let r := q - f
  if r < 1/2 then f
  else if 1/2 < r then f + 1
  else if f % 2 = 0 then f else f + 1

/-- `round(x, 3)` on the model rationals. -/
def roundTo3 (q : ℚ) : ℚ := (bankersRound (q * 1000) : ℚ) / 1000

/-- `os.path.basename`. -/
def basename (p : String) : String :=
  ⟨(p.data.reverse.takeWhile (fun c => c ≠ '/')).reverse⟩

/-- The uniform output record of `extract_numbers`.  Keys that a given path
omits from the returned dict (`filename`, `error`) are modelled as `none`. -/
structure ExtractionResult where
  image_path : String
  filename : Option String
  street_number : Option String
  street_name : Option String
  unit_number : Option String
  confidence : ℚ
  error : Option String
  processing_time : ℚ
deriving Repr, DecidableEq

/-- Outcome of the PaddleOCR engine call, as seen by `extract_numbers`:
an exception anywhere inside the `try`, an empty/falsy `result`, or the
flattened `(rec_texts, rec_scores)` pairs of the returned pages. -/
inductive PaddleOcrRun where
  | raised (msg : String)
  | noResult
  | pages (toks : List (String × ℚ))
deriving Repr, DecidableEq

/-- `extract_numbers` of `src/paddleocr/pod_ocr.py` (lines 125-228).
`elapsed` is the oracle wall-clock duration used for `processing_time`. -/
def paddleExtract (run : PaddleOcrRun) (threshold : ℚ) (imagePath : String)
    (elapsed : ℚ) : ExtractionResult :=
  match run with
  | .raised msg =>
    { image_path := imagePath, filename := some (basename imagePath),
      street_number := none, street_name := none, unit_number := none,
      confidence := 0, error := some msg, processing_time := roundTo3 elapsed }
  | .noResult =>
    { image_path := imagePath, filename := none,
      street_number := none, street_name := none, unit_number := none,
      confidence := 0, error := none, processing_time := roundTo3 elapsed }
  | .pages toks =>
    let extracted := toks.filterMap (fun ts => if threshold ≤ ts.2 then some ts.1 else none)
    let maxConf := toks.foldl (fun m ts => max m ts.2) 0
    let acc := classifyPaddle (combinedTexts extracted) ClassAcc.init
    { image_path := imagePath, filename := some (basename imagePath),
      street_number := acc.sn, street_name := joinNames acc.names,
      unit_number := acc.un,
      confidence := roundTo3 maxConf, error := none,
      processing_time := roundTo3 elapsed }

/-- Outcome of the GOT-OCR call as seen by `extract_numbers`: the watchdog
timeout, an exception (whether caught inside `_extract_numbers_impl` or by
the wrapper thread — both produce the same error record), or generated text. -/
inductive GotOcrRun where
  | timeout
  | raised (msg : String)
  | generated (res : String)
deriving Repr, DecidableEq

/-- `extract_numbers` / `_extract_numbers_impl` of `src/got-ocr/pod_ocr.py`
(lines 128-339).  The generated text is whitespace-split into tokens, runs
merged, classified; the unit number comes from a full-text search. -/
def gotExtract (run : GotOcrRun) (imagePath : String) (elapsed : ℚ) :
    ExtractionResult :=
  match run with
  | .timeout =>
    { image_path := imagePath, filename := some (basename imagePath),
      street_number := none, street_name := none, unit_number := none,
      confidence := 0, error := some "Timeout after 30s",
      processing_time := roundTo3 elapsed }
  | .raised msg =>
    { image_path := imagePath, filename := some (basename imagePath),
      street_number := none, street_name := none, unit_number := none,
      confidence := 0, error := some msg, processing_time := roundTo3 elapsed }
  | .generated res =>
    if res = "" then
      { image_path := imagePath, filename := none,
        street_number := none, street_name := none, unit_number := none,
        confidence := 1, error := none, processing_time := roundTo3 elapsed }
    else
      let acc := classifyGot (combinedTexts (pySplit res)) ClassAcc.init
      let unit := match acc.un with
        | some u => some u
        | none => parse_unit_number res
      { image_path := imagePath, filename := some (basename imagePath),
        street_number := acc.sn, street_name := joinNames acc.names,
        unit_number := unit,
        confidence := 1, error := none, processing_time := roundTo3 elapsed }

/-- Outcome of the EasyOCR `readtext` call as seen by `extract_numbers`. -/
inductive EasyOcrRun where
  | raised (msg : String)
  | noResult
  | items (toks : List (String × ℚ))
deriving Repr, DecidableEq

/-- `extract_numbers` of `src/easyocr/pod_ocr.py` (lines 110-194): no run
merge, no punctuation strip, per-token unit search, Title-case street names. -/
def easyExtract (run : EasyOcrRun) (threshold : ℚ) (imagePath : String)
    (elapsed : ℚ) : ExtractionResult :=
  match run with
  | .raised msg =>
    { image_path := imagePath, filename := some (basename imagePath),
      street_number := none, street_name := none, unit_number := none,
      confidence := 0, error := some msg, processing_time := roundTo3 elapsed }
  | .noResult =>
    { image_path := imagePath, filename := none,
      street_number := none, street_name := none, unit_number := none,
      confidence := 0, error := none, processing_time := roundTo3 elapsed }
  | .items toks =>
    let extracted := toks.filterMap (fun ts => if threshold ≤ ts.2 then some ts.1 else none)
    let maxConf := toks.foldl (fun m ts => max m ts.2) 0
    let acc := classifyEasy extracted ClassAcc.init
    { image_path := imagePath, filename := some (basename imagePath),
      street_number := acc.sn, street_name := joinNames acc.names,
      unit_number := acc.un,
      confidence := roundTo3 maxConf, error := none,
      processing_time := roundTo3 elapsed }

/-- The token stream that easyocr classification iterates over: the raw
threshold-filtered texts, with no normalization pass. -/
def easyCandidates (toks : List (String × ℚ)) (threshold : ℚ) : List String :=
  toks.filterMap (fun ts => if threshold ≤ ts.2 then some ts.1 else none)

/-- Outcome of the TrOCR generation as seen by `extract_numbers`. -/
inductive TrocrRun where
  | raised (msg : String)
  | generated (res : String)
deriving Repr, DecidableEq

/-- `extract_numbers` of `src/trocr/pod_ocr.py` (lines 87-166): full-text
unit search first, then whitespace-split tokens (no run merge), confidence
fixed at 1.0 on success. -/
def trocrExtract (run : TrocrRun) (imagePath : String) (elapsed : ℚ) :
    ExtractionResult :=
  match run with
  | .raised msg =>
    { image_path := imagePath, filename := some (basename imagePath),
      street_number := none, street_name := none, unit_number := none,
      confidence := 0, error := some msg, processing_time := roundTo3 elapsed }
  | .generated res =>
    let fullUnit := parse_unit_number res
    let acc := classifyTrocr (pySplit res) { ClassAcc.init with un := fullUnit }
    { image_path := imagePath, filename := some (basename imagePath),
      street_number := acc.sn, street_name := joinNames acc.names,
      unit_number := acc.un,
      confidence := 1, error := none, processing_time := roundTo3 elapsed }

/-! ## JSON payloads

The log payloads written by the batch runners are flat JSON objects (string,
number and null fields).  `dumps` models Python `json.dumps(data, indent=2)`
on such objects; `loads` models `json.loads` restricted to the same fragment
(nested containers and booleans do not occur in these payloads and make the
modelled parse fail).  Characters outside the basic multilingual plane are
emitted raw rather than as surrogate pairs. -/

/-- A flat JSON payload value: null, a string, or a number kept as its
literal text. -/
inductive JVal where
  | jnull
  | jstr (s : String)
  | jnum (lit : String)
deriving Repr, DecidableEq

/-- A payload: the key/value pairs of a flat JSON object, in order. -/
abbrev Payload := List (String × JVal)

/-- One hexadecimal digit (lower case, as CPython's json emits). -/
def hexDig (d : Nat) : Char :=
  if d < 10 then Char.ofNat ('0'.toNat + d) else Char.ofNat ('a'.toNat + d - 10)

/-- Four-digit hexadecimal rendering for `\uXXXX` escapes. -/
def hex4 (n : Nat) : List Char :=
  [hexDig (n / 4096 % 16), hexDig (n / 256 % 16), hexDig (n / 16 % 16), hexDig (n % 16)]

/-- JSON escaping of one character, as `json.dumps` (with `ensure_ascii`)
produces it. -/
def escapeChar (c : Char) : List Char :=
  if c = '"' then ['\\', '"']
  else if c = '\\' then ['\\', '\\']
  else if c = '\n' then ['\\', 'n']
  else if c = '\t' then ['\\', 't']
  else if c = '\r' then ['\\', 'r']
  else if c = '\x08' then ['\\', 'b']
  else if c = '\x0c' then ['\\', 'f']
  else if c.toNat < 0x20 || (0x7e < c.toNat && c.toNat < 0x10000) then
    '\\' :: 'u' :: hex4 c.toNat
  else [c]

/-- Escape a character list (string body). -/
def escL (cs : List Char) : List Char :=
  cs.foldr (fun c acc => escapeChar c ++ acc) []

/-- Escape a whole string body. -/
def escList (s : String) : List Char :=
  escL s.data

/-- Render one value. -/
def renderVal : JVal → List Char
  | .jnull => "null".data
  | .jnum lit => lit.data
  | .jstr s => '"' :: (escList s ++ ['"'])

/-- The characters of one `indent=2` object member line (without the
trailing comma). -/
def entryChars (k : String) (v : JVal) : List Char :=
  ' ' :: ' ' :: '"' :: (escList k ++ ['"', ':', ' '] ++ renderVal v)

/-- The member lines of the pretty-printed object: every entry on its own
line, a comma after each but the last. -/
def bodyLines : Payload → List String
  | [] => []
  | [kv] => [⟨entryChars kv.1 kv.2⟩]
  | kv :: rest => ⟨entryChars kv.1 kv.2 ++ [',']⟩ :: bodyLines rest

/-- The lines of `json.dumps(p, indent=2)`. -/
def dumpLines (p : Payload) : List String :=
  match p with
  | [] => ["\x7b\x7d"]
  | _ => "\x7b" :: bodyLines p ++ ["\x7d"]

/-- `json.dumps(p, indent=2)` itself. -/
def dumps (p : Payload) : String :=
  String.intercalate "\n" (dumpLines p)

/-! ### `json.loads`, modelled for the flat-object fragment -/

/-- The four JSON whitespace characters. -/
def jsonWs (c : Char) : Bool :=
  c = ' ' || c = '\t' || c = '\n' || c = '\r'

/-- Skip leading JSON whitespace. -/
def skipWs : List Char → List Char
  | c :: cs => if jsonWs c then skipWs cs else c :: cs
  | [] => []

/-- Value of one hexadecimal digit. -/
def hexVal (c : Char) : Option Nat :=
  let n := c.toNat
  if 48 ≤ n ∧ n ≤ 57 then some (n - 48)
  else if 97 ≤ n ∧ n ≤ 102 then some (n - 87)
  else if 65 ≤ n ∧ n ≤ 70 then some (n - 55)
  else none

/-- Resolution of a single-character escape. -/
def unescChar (e : Char) : Option Char :=
  if e = '"' ∨ e = '\\' ∨ e = '/' then some e
  else if e = 'n' then some '\n'
  else if e = 't' then some '\t'
  else if e = 'r' then some '\r'
  else if e = 'b' then some '\x08'
  else if e = 'f' then some '\x0c'
  else none

/-- Parse a JSON string body after the opening quote (strict mode: raw
control characters are rejected). -/
def parseStrAux : List Char → List Char → Option (String × List Char)
  | acc, '"' :: rest => some (⟨acc.reverse⟩, rest)
  | acc, '\\' :: 'u' :: a :: b :: c :: d :: rest =>
    (match hexVal a, hexVal b, hexVal c, hexVal d with
     | some va, some vb, some vc, some vd =>
       parseStrAux (Char.ofNat (((va * 16 + vb) * 16 + vc) * 16 + vd) :: acc) rest
     | _, _, _, _ => none)
  | _, ['\\'] => none
  | acc, '\\' :: e :: rest =>
    (match unescChar e with
     | some ch => parseStrAux (ch :: acc) rest
     | none => none)
  | acc, c :: rest => if c.toNat < 0x20 then none else parseStrAux (c :: acc) rest
  | _, [] => none

/-- Characters that can occur in a JSON number literal. -/
def numChar (c : Char) : Bool :=
  c.isDigit || c = '-' || c = '+' || c = '.' || c = 'e' || c = 'E'

/-- Grammar check for a JSON number literal:
`-? digits (. digits)? ([eE] [+-]? digits)?`. -/
def validNumLit (cs : List Char) : Bool :=
  let cs1 := match cs with
    | '-' :: r => r
    | r => r
  let ds := cs1.takeWhile Char.isDigit
  let cs2 := cs1.drop ds.length
  if ds.isEmpty then false
  else
    let cs3 := match cs2 with
      | '.' :: r =>
        let fs := r.takeWhile Char.isDigit
        if fs.isEmpty then ['.'] else r.drop fs.length
      | r => r
    match cs3 with
    | [] => true
    | 'e' :: r | 'E' :: r =>
      let r1 := match r with
        | '+' :: r1 => r1
        | '-' :: r1 => r1
        | r1 => r1
      let es := r1.takeWhile Char.isDigit
      !es.isEmpty && (r1.drop es.length).isEmpty
    | _ => false

/-- Parse one value of the flat fragment: a string, `null`, or a number. -/
def parseVal (cs : List Char) : Option (JVal × List Char) :=
  match cs with
  | '"' :: rest => (parseStrAux [] rest).map (fun sr => (.jstr sr.1, sr.2))
  | 'n' :: 'u' :: 'l' :: 'l' :: rest => some (.jnull, rest)
  | _ =>
    let lit := cs.takeWhile numChar
    if !lit.isEmpty && validNumLit lit then some (.jnum ⟨lit⟩, cs.drop lit.length)
    else none

/-- Parse the members of an object after the opening brace.  The fuel bounds
the number of members; `loads` supplies one unit per input character. -/
def parseObjBody : Nat → List Char → Option (Payload × List Char)
  | 0, _ => none
  | fuel + 1, cs0 =>
    match skipWs cs0 with
    | '\x7d' :: rest => some ([], rest)
    | '"' :: rest =>
      (match parseStrAux [] rest with
       | none => none
       | some (k, r1) =>
         match skipWs r1 with
         | ':' :: r2 =>
           (match parseVal (skipWs r2) with
            | none => none
            | some (v, r3) =>
              match skipWs r3 with
              | ',' :: r4 =>
                (match parseObjBody fuel r4 with
                 | some (es, r5) => some ((k, v) :: es, r5)
                 | none => none)
              | '\x7d' :: r4 => some ([(k, v)], r4)
              | _ => none)
         | _ => none)
    | _ => none

/-- `json.loads`, restricted to flat objects; anything else fails. -/
def loads (s : String) : Option Payload :=
  match skipWs s.data with
  | '\x7b' :: rest =>
    (match parseObjBody (rest.length + 1) rest with
     | some (es, r) => if (skipWs r).isEmpty then some es else none
     | none => none)
  | _ => none

/-! ## The log scanner of `generate_report_from_log.py` / `fix_log.py` -/

/-- `line.count('{') - line.count('}')`. -/
def braceCount (s : String) : ℤ :=
  ((s.data.filter (fun c => c = '\x7b')).length : ℤ) -
    ((s.data.filter (fun c => c = '\x7d')).length : ℤ)

/-- First index at which `pat` occurs in the list, if any. -/
def findSub (pat : List Char) : List Char → Option Nat
  | [] => if pat.isEmpty then some 0 else none
  | c :: cs => if pat.isPrefixOf (c :: cs) then some 0 else (findSub pat cs).map (· + 1)

/-- The backtracking split of `re.match(r"^\[(.*?)\] (.*?): (.*)", line)`
after the opening bracket: the earliest `"] "` whose remainder still
contains `": "` ends group 1; the earliest following `": "` ends group 2. -/
def tagSplit : List Char → Option (List Char × List Char × List Char)
  | [] => none
  | c :: cs =>
    if ("] ".data).isPrefixOf (c :: cs) then
      let rest := cs.drop 1
      match findSub (": ".data) rest with
      | some j => some ([], rest.take j, rest.drop (j + 2))
      | none => (tagSplit cs).map (fun g => (c :: g.1, g.2.1, g.2.2))
    else (tagSplit cs).map (fun g => (c :: g.1, g.2.1, g.2.2))

/-- `prefix_pattern.match(line)` of `generate_report_from_log.py` (line 51)
and `fix_log.py` (line 11): groups (producer, subject, payload-start). -/
def prefixMatch (line : String) : Option (String × String × String) :=
  match line.data with
  | '[' :: rest => (tagSplit rest).map (fun g => (⟨g.1⟩, ⟨g.2.1⟩, ⟨g.2.2⟩))
  | _ => none

/-- The analogous split for `re.match(r"^\[(.*?)\] (.*?):", line)` of
`run_classification_batch.py` (line 59): group 2 ends at the first bare
colon. -/
def resumeTagSplit : List Char → Option (List Char × List Char)
  | [] => none
  | c :: cs =>
    if ("] ".data).isPrefixOf (c :: cs) then
      let rest := cs.drop 1
      match findSub [':'] rest with
      | some j => some ([], rest.take j)
      | none => (resumeTagSplit cs).map (fun g => (c :: g.1, g.2))
    else (resumeTagSplit cs).map (fun g => (c :: g.1, g.2))

/-- The (model, filename) key a log line contributes to the resume index of
`run_classification_batch.py`, if its prefix matches the tag pattern. -/
def resumeKey (line : String) : Option (String × String) :=
  match line.data with
  | '[' :: rest => (resumeTagSplit rest).map (fun g => (⟨g.1⟩, ⟨g.2⟩))
  | _ => none

/-- The resume index built by `run_classification_batch.py` (lines 61-67):
one key per tag-matching line, payloads never consulted. -/
def resumeKeys (log : List String) : List (String × String) :=
  log.filterMap resumeKey

/-- The (model, filename) key extraction of `run_combined_benchmark.py`
(lines 57-63): `line.split("] ", 1)` then `split(":", 1)[0].strip()`. -/
def combinedKey (line : String) : Option (String × String) :=
  match line.data with
  | '[' :: rest =>
    (match findSub ("] ".data) rest with
     | some i =>
       let metaPart := rest.drop (i + 2)
       some (⟨rest.take i⟩, pyStrip ⟨metaPart.takeWhile (fun c => c ≠ ':')⟩)
     | none => none)
  | _ => none

/-- The scanner state: emitted payloads, the `in_block` flag, the buffered
block text and the running brace balance. -/
structure ScanState where
  results : List Payload
  inBlock : Bool
  buf : String
  braces : ℤ
deriving Repr, DecidableEq

/-- The empty initial state. -/
def ScanState.init : ScanState := ⟨[], false, "", 0⟩

/-- `try_parse`: append the parsed payload on success, skip the block on
failure (never raises). -/
def tryParse (buf : String) (results : List Payload) : List Payload :=
  match loads buf with
  | some p => results ++ [p]
  | none => results

/-- One line of the scanner loop of `generate_markdown_report`
(`generate_report_from_log.py` lines 58-88; identical in `fix_log.py`
lines 18-45). -/
def scanStep (st : ScanState) (line : String) : ScanState :=
  match prefixMatch line with
  | some g =>
    let r1 := if st.inBlock ∧ st.buf ≠ "" then tryParse st.buf st.results else st.results
    let jsonPart := g.2.2
    let bc := braceCount jsonPart
    if bc = 0 ∧ pyStrip jsonPart ≠ "" then
      { results := tryParse jsonPart r1, inBlock := false, buf := "", braces := bc }
    else
      { results := r1, inBlock := true, buf := jsonPart, braces := bc }
  | none =>
    if st.inBlock then
      let buf := st.buf ++ line ++ "\n"
      let bc := st.braces + braceCount line
      if bc = 0 then
        { results := tryParse buf st.results, inBlock := false, buf := "", braces := 0 }
      else
        { results := st.results, inBlock := true, buf := buf, braces := bc }
    else st

/-- The scanner state after consuming all lines. -/
def scanStates (log : List String) : ScanState :=
  log.foldl scanStep ScanState.init

/-- The emitted payloads of a whole scan, including the trailing best-effort
parse of a still-open block at end of stream (lines 91-92). -/
def scanLog (log : List String) : List Payload :=
  let st := scanStates log
  if st.inBlock ∧ st.buf ≠ "" then tryParse st.buf st.results else st.results

/-- The tagged-block serialization of one payload, as the lines written by
`run_combined_benchmark.py` line 99 / `run_classification_batch.py` line 109 /
`fix_log.py` line 74: `[producer] subject: ` glued to the first line of the
pretty-printed JSON, remaining JSON lines following verbatim. -/
def serializeBlock (prod subj : String) (p : Payload) : List String :=
  match dumpLines p with
  | [] => []
  | l0 :: ls => ("[" ++ prod ++ "] " ++ subj ++ ": " ++ l0) :: ls

/-! ## Aggregation (`generate_report_from_log.py` lines 97-104) -/

/-- The deduplication key: `(r.get('model'), r.get('filename'))`, fields read
from the parsed payload with Python `dict.get` semantics (duplicate JSON keys
resolve to the last occurrence, as `json.loads` builds the dict). -/
def pyGet (p : Payload) (k : String) : Option JVal :=
  p.foldl (fun acc kv => if kv.1 = k then some kv.2 else acc) none

/-- The aggregation key of one payload. -/
def keyOf (p : Payload) : Option JVal × Option JVal :=
  (pyGet p "model", pyGet p "filename")

/-- The `unique_results` dict as a map: each payload overwrites its key. -/
def aggState (rs : List Payload) : (Option JVal × Option JVal) → Option Payload :=
  rs.foldl (fun m r => fun k => if k = keyOf r then some r else m k) (fun _ => none)

/-! ## Specification-level restatements (from the claims' words), to be
compared against the code-level definitions above -/

/-- The street-number rule as the (amended) claim words it: the first
candidate of the sequence matching the shape is the street number; the
detached-suffix letter is read from the immediately following candidate of
the same sequence. -/
def firstStreetNumber : List String → Option String
  | [] => none
  | t :: rest =>
    match parse_street_number t with
    | some n => some (suffixAttach n rest)
    | none => firstStreetNumber rest

/-- The street-name fragment rule as the claim words it for the
paddleocr/got-ocr variant: a token contributes the whole (whitespace-
stripped) token iff it contains a street-type word as case-insensitive
substring, or it has one of the three proper-noun shapes and is not,
compared case-insensitively, in the stop-word set. -/
def streetNameFragment (t : String) : Option String :=
  if containsStreetType t ||
     ((titleShape (pyStrip t).data || capsShape (pyStrip t).data ||
       capsPhraseShape (pyStrip t).data) &&
      !(upperStopWords.contains (upperStr (pyStrip t)))) then
    some (pyStrip t)
  else none

/-- The easyocr/trocr street-name fragment rule: street-type substring, or
Title-case shape not in the Title-cased stop-word list. -/
def streetNameFragmentEasy (t : String) : Option String :=
  if containsStreetType t ||
     (titleShape (pyStrip t).data && !(titleStopWords.contains (pyStrip t))) then
    some (pyStrip t)
  else none

/-- The invariant of claim C1 on one result record. -/
def errFieldsInv (r : ExtractionResult) : Prop :=
  r.error ≠ none →
    r.street_number = none ∧ r.street_name = none ∧ r.unit_number = none ∧
      r.confidence = 0

/-! ## Well-formedness side conditions for the round-trip claim -/

/-- No brace character in the string (braces inside serialized string values
defeat the scanner's brace counting). -/
def noBraceStr (s : String) : Bool :=
  s.data.all (fun c => c ≠ '\x7b' && c ≠ '\x7d')

/-- A value whose serialization the brace-counting scanner can handle: null,
a brace-free string, or a well-formed number literal (whose characters are
all number characters — implied by validity, recorded for direct use). -/
def valOk : JVal → Bool
  | .jnull => true
  | .jstr s => noBraceStr s
  | .jnum lit => validNumLit lit.data && lit.data.all numChar

/-- Every key and value of the payload is scanner-safe. -/
def payloadOk (p : Payload) : Bool :=
  p.all (fun kv => noBraceStr kv.1 && valOk kv.2)

/-- The tag-grammar side conditions of the spec (§6): the producer must not
contain `"] "` and the subject must not contain `": "`. -/
def prodOk (prod : String) : Bool := !(containsSub ("] ".data) prod.data)

/-- See `prodOk`. -/
def subjOk (subj : String) : Bool := !(containsSub (": ".data) subj.data)

/-- A line that does not match the tag pattern. -/
def nonTagLine (l : String) : Bool := (prefixMatch l).isNone

/-- Starting from balance `bc0`, the running brace count stays non-zero
after every one of the lines (the block never closes). -/
def neverBalances (bc0 : ℤ) : List String → Bool
  | [] => true
  | l :: ls => decide (bc0 + braceCount l ≠ 0) && neverBalances (bc0 + braceCount l) ls

/-- The buffer the scanner accumulates: the initial payload-start text
followed by each raw line with its newline. -/
def bufAfter (b0 : String) (ls : List String) : String :=
  b0 ++ String.join (ls.map (fun l => l ++ "\n"))

/-- The character stream of the scanner's reassembled object body: every
member line (with separating commas) followed by its newline. -/
def bodyChars : Payload → List Char
  | [] => []
  | [kv] => entryChars kv.1 kv.2 ++ ['\n']
  | kv :: rest => entryChars kv.1 kv.2 ++ ',' :: '\n' :: bodyChars rest

/-- Sum of the per-line brace balances. -/
def bracesSum (ls : List String) : ℤ :=
  (ls.map braceCount).sum

/-! ## Character-level helper lemmas -/

/-- `Char.ofNat` is left-inverse to `Char.toNat` on small code points. -/
theorem charToNatOfNat (m : Nat) (h : m < 55296) : (Char.ofNat m).toNat = m := by
  have hv : m.isValidChar := Or.inl h
  simp [Char.ofNat, hv, Char.ofNatAux, Char.toNat, UInt32.toNat, BitVec.toNat_ofNatLt]

/-- `Char.isLower` via the numeric code point. -/
theorem charIsLowerIff (d : Char) : (Char.isLower d = true) ↔ (97 ≤ d.toNat ∧ d.toNat ≤ 122) := by
  simp [Char.isLower, UInt32.le_def, BitVec.le_def, Char.toNat, UInt32.toNat]

/-- Uppercasing never yields a lowercase basic-latin letter. -/
theorem toUpperNotLower : ∀ c : Char, (Char.toUpper c).isLower = false := by
  intro c
  unfold Char.toUpper
  by_cases h : c.toNat ≥ 97 ∧ c.toNat ≤ 122
  · rw [if_pos h]
    have h1 : c.toNat - 32 < 55296 := by omega
    have ht := charToNatOfNat (c.toNat - 32) h1
    rw [Bool.eq_false_iff]
    intro hcon
    rw [charIsLowerIff, ht] at hcon
    omega
  · rw [if_neg h]
    rw [Bool.eq_false_iff]
    intro hcon
    rw [charIsLowerIff] at hcon
    omega

/-- An uppercased string never equals a string containing a lowercase
letter. -/
theorem upperStrNeOfLower (s t : String) (c : Char) (hc : c ∈ t.data) (hl : c.isLower = true) :
    upperStr s ≠ t := by
  intro hEq
  have hd : (upperStr s).data = t.data := by rw [hEq]
  have hmem : c ∈ (upperStr s).data := by rw [hd]; exact hc
  simp only [upperStr] at hmem
  rcases List.mem_map.mp hmem with ⟨a, _, ha⟩
  rw [← ha] at hl
  rw [toUpperNotLower a] at hl
  exact Bool.false_ne_true hl

/-- Membership form of `List.contains` for strings. -/
theorem containsIffMem {l : List String} {a : String} : l.contains a = true ↔ a ∈ l :=
  List.elem_iff

/-- Convenience form of `upperStrNeOfLower` with the witness found by
evaluation. -/
theorem upperStrNeOfHasLower (s t : String) (h : t.data.any Char.isLower = true) :
    upperStr s ≠ t := by
  rcases List.any_eq_true.mp h with ⟨c, hc, hl⟩
  exact upperStrNeOfLower s t c hc hl

/-- The exclusion test of `parse_street_name` (`normalized not in excluded
and normalized.upper() not in excluded`) coincides with case-insensitive
membership in the stop-word set. -/
theorem excludedEquiv (s : String) :
    (excludedWords.contains s || excludedWords.contains (upperStr s)) =
      upperStopWords.contains (upperStr s) := by
  rw [Bool.eq_iff_iff, Bool.or_eq_true, containsIffMem, containsIffMem, containsIffMem]
  constructor
  · rintro (hs | hu)
    · fin_cases hs <;> decide
    · simp only [excludedWords, List.mem_cons, List.not_mem_nil, or_false] at hu
      rcases hu with h|h|h|h|h|h|h|h|h|h|h|h|h|h|h|h|h|h|h|h|h|h|h|h|h|h|h|h|h|h|h|h|h|h|h|h|h|h
      all_goals first
        | (rw [h]; decide)
        | (exact absurd h (upperStrNeOfHasLower s _ (by decide)))
  · intro hu
    right
    simp only [upperStopWords, List.mem_cons, List.not_mem_nil, or_false] at hu
    rcases hu with h|h|h|h|h|h|h|h|h|h|h|h|h|h|h|h|h|h|h
    all_goals (rw [h]; decide)

/-! ## Classification-loop lemmas -/

/-- The paddleocr loop collects exactly the accepted street-name fragments,
in encounter order. -/
theorem classifyPaddleNames (l : List String) (acc : ClassAcc) :
    (classifyPaddle l acc).names = acc.names ++ l.filterMap parse_street_name := by
  induction l generalizing acc with
  | nil => simp [classifyPaddle]
  | cons t rest ih =>
    rw [classifyPaddle, ih, List.filterMap_cons]
    cases hn : parse_street_name t <;>
      cases hs : parse_street_number t <;>
        simp only [hn, hs] <;> (repeat' split) <;> (first | rfl | simp)

/-- The paddleocr loop's street number is the first-match rule. -/
theorem classifyPaddleSn (l : List String) (acc : ClassAcc) :
    (classifyPaddle l acc).sn =
      match acc.sn with
      | some n => some n
      | none => firstStreetNumber l := by
  induction l generalizing acc with
  | nil => cases hacc : acc.sn <;> simp [classifyPaddle, hacc, firstStreetNumber]
  | cons t rest ih =>
    rw [classifyPaddle, ih]
    cases hacc : acc.sn <;>
      cases hn : parse_street_name t <;>
        cases hs : parse_street_number t
    all_goals simp only [hacc, hn, hs, Option.isNone_none, Option.isNone_some,
      if_true, if_false, firstStreetNumber]
    all_goals (repeat' split)
    all_goals solve
      | rfl
      | simp
      | simp_all
      | (split_ifs at * <;> simp_all)

/-- The got-ocr loop never assigns the unit number. -/
theorem classifyGotUn (l : List String) (acc : ClassAcc) :
    (classifyGot l acc).un = acc.un := by
  induction l generalizing acc with
  | nil => simp [classifyGot]
  | cons t rest ih =>
    rw [classifyGot, ih]
    cases hn : parse_street_name (cleanToken t) <;>
      cases hs : parse_street_number (cleanToken t) <;>
        simp only [hn, hs] <;> (repeat' split) <;> (first | rfl | simp)

/-- The easyocr loop collects exactly the accepted (Title-case-rule)
street-name fragments, in encounter order. -/
theorem classifyEasyNames (l : List String) (acc : ClassAcc) :
    (classifyEasy l acc).names = acc.names ++ l.filterMap parse_street_name_easy := by
  induction l generalizing acc with
  | nil => simp [classifyEasy]
  | cons t rest ih =>
    rw [classifyEasy, ih, List.filterMap_cons]
    cases hn : parse_street_name_easy t <;>
      cases hs : parse_street_number t <;>
        simp only [hn, hs] <;> (repeat' split) <;> (first | rfl | simp)

/-- `parse_street_name` (paddle/got variant) equals the claim-level fragment
rule. -/
theorem parse_street_name_eq_fragment (t : String) :
    parse_street_name t = streetNameFragment t := by
  have key : (((titleShape (pyStrip t).data || capsShape (pyStrip t).data ||
      capsPhraseShape (pyStrip t).data) &&
      !(excludedWords.contains (pyStrip t))) &&
      !(excludedWords.contains (upperStr (pyStrip t)))) =
      ((titleShape (pyStrip t).data || capsShape (pyStrip t).data ||
        capsPhraseShape (pyStrip t).data) &&
       !(upperStopWords.contains (upperStr (pyStrip t)))) := by
    rw [Bool.and_assoc, ← Bool.not_or, excludedEquiv]
  unfold parse_street_name streetNameFragment
  by_cases h : containsStreetType t = true
  · simp [h]
  · rw [Bool.not_eq_true] at h
    simp only [h, Bool.false_or, key]
    simp

/-- `parse_street_name` (easyocr/trocr variant) equals the Title-case-only
fragment rule. -/
theorem parse_street_name_easy_eq_fragment (t : String) :
    parse_street_name_easy t = streetNameFragmentEasy t := by
  unfold parse_street_name_easy streetNameFragmentEasy
  by_cases h : containsStreetType t = true
  · simp [h]
  · rw [Bool.not_eq_true] at h
    simp only [h, Bool.false_or]
    simp

/-! ## Run-merge lemmas -/

/-- Unfolding: the empty merge. -/
theorem mergeRunsNil : mergeRuns [] = [] := by
  rw [mergeRuns.eq_def]

/-- Unfolding: a merge starting at an all-caps token takes the whole run. -/
theorem mergeRunsConsPos (x : String) (xs : List String) (h : isCapsToken x = true) :
    mergeRuns (x :: xs) =
      joinSpaces ((x :: xs).takeWhile isCapsToken) :: mergeRuns ((x :: xs).dropWhile isCapsToken) := by
  rw [mergeRuns.eq_def]
  simp only [h, if_true]

/-- Unfolding: a non-qualifying token passes through. -/
theorem mergeRunsConsNeg (x : String) (xs : List String) (h : isCapsToken x = false) :
    mergeRuns (x :: xs) = x :: mergeRuns xs := by
  rw [mergeRuns.eq_def]
  simp only [h]
  simp

/-- The source's accumulator loop implements the specification-level
run-merge on the cleaned token sequence. -/
theorem combineCapsMerge (ts : List String) : ∀ (run : List String),
    (∀ x ∈ run, isCapsToken x = true) →
    combineCaps ts run = mergeRuns (run ++ ts.map cleanToken) := by
  induction ts with
  | nil =>
    intro run hrun
    rw [List.map_nil, List.append_nil]
    cases run with
    | nil => simp [combineCaps, mergeRunsNil]
    | cons r rs =>
      rw [combineCaps, mergeRunsConsPos r rs (hrun r (by simp)),
        List.takeWhile_eq_self_iff.mpr (by intro x hx; exact hrun x hx),
        List.dropWhile_eq_nil_iff.mpr (by intro x hx; exact hrun x hx),
        mergeRunsNil]
      simp
  | cons t ts ih =>
    intro run hrun
    rw [List.map_cons, combineCaps]
    cases hc : isCapsToken (cleanToken t) with
    | true =>
      rw [if_pos rfl]
      rw [ih (run ++ [cleanToken t]) (by
        intro x hx
        rcases List.mem_append.mp hx with h | h
        · exact hrun x h
        · rw [List.mem_singleton.mp h]; exact hc)]
      rw [List.append_assoc, List.singleton_append]
    | false =>
      rw [if_neg (by simp)]
      rw [ih [] (by simp)]
      cases run with
      | nil =>
        simp only [List.nil_append, List.isEmpty_nil, if_pos rfl]
        rw [mergeRunsConsNeg _ _ hc]
        simp
      | cons r rs =>
        have hall : ∀ x ∈ r :: rs, isCapsToken x = true := hrun
        simp only [List.nil_append]
        rw [List.cons_append, mergeRunsConsPos r (rs ++ cleanToken t :: List.map cleanToken ts) (hall r (by simp))]
        have hsplit : r :: (rs ++ cleanToken t :: List.map cleanToken ts) =
            (r :: rs) ++ (cleanToken t :: List.map cleanToken ts) := by simp
        rw [hsplit,
          List.takeWhile_append_of_pos (by intro a ha; exact hall a ha),
          List.dropWhile_append_of_pos (by intro a ha; exact hall a ha),
          List.takeWhile_cons_of_neg (by simp [hc]),
          List.dropWhile_cons_of_neg (by simp [hc]),
          List.append_nil, mergeRunsConsNeg _ _ hc]
        simp

/-! ## Aggregation lemmas -/

/-- The `unique_results` dict holds, per key, exactly the last scanned
payload with that key. -/
theorem aggStateChar (rs : List Payload) (k : Option JVal × Option JVal) :
    aggState rs k = (rs.filter (fun r => decide (keyOf r = k))).getLast? := by
  induction rs using List.reverseRecOn with
  | nil => rfl
  | append_singleton rs r ih =>
    simp only [aggState] at ih ⊢
    rw [List.foldl_append, List.foldl_cons, List.foldl_nil, List.filter_append]
    by_cases hk : k = keyOf r
    · simp only [if_pos hk]
      have hd : decide (keyOf r = k) = true := by simp [hk]
      simp [List.filter, hd]
    · simp only [if_neg hk]
      have hd : decide (keyOf r = k) = false := by
        simp only [decide_eq_false_iff_not]
        intro h
        exact hk h.symm
      simp [List.filter, hd, ih]

/-- Feeding the same payload stream twice leaves the dedup map unchanged. -/
theorem aggStateIdem (rs : List Payload) :
    aggState (rs ++ rs) = aggState rs := by
  funext k
  rw [aggStateChar, aggStateChar, List.filter_append, List.getLast?_append,
    Option.or_self]

/-! ## Scanner round-trip and capture lemmas -/

open PodOcr

theorem findSubTwo (x y : Char) (hxy : x ≠ y) (b : List Char) :
    ∀ (a : List Char), containsSub [x, y] a = false →
    findSub [x, y] (a ++ x :: y :: b) = some a.length := by
  intro a
  induction a with
  | nil =>
    intro _
    simp only [List.nil_append, findSub]
    rw [if_pos (by simp [List.isPrefixOf])]
    rfl
  | cons c a' ih =>
    intro ha
    simp only [containsSub, Bool.or_eq_false_iff] at ha
    rw [List.cons_append, findSub, if_neg ?hpre, ih ha.2]
    · rfl
    case hpre =>
      intro hcon
      cases a' with
      | nil =>
        simp only [List.nil_append] at hcon
        simp [List.isPrefixOf] at hcon
        exact hxy hcon.2.symm
      | cons d a'' =>
        simp only [List.cons_append] at hcon
        simp [List.isPrefixOf] at hcon
        apply absurd ha.1
        simp [List.isPrefixOf, hcon.1, hcon.2]

theorem dropTwoLeft (subj l0 : List Char) :
    (subj ++ ':' :: ' ' :: l0).drop (subj.length + 2) = l0 := by
  induction subj with
  | nil => rfl
  | cons c cs ih => simpa using ih

theorem tagSplitTag (subj l0 : List Char) (hsubj : containsSub [':', ' '] subj = false) :
    ∀ (prod : List Char), containsSub [']', ' '] prod = false →
    tagSplit (prod ++ ']' :: ' ' :: (subj ++ ':' :: ' ' :: l0)) =
      some (prod, subj, l0) := by
  intro prod
  induction prod with
  | nil =>
    intro _
    simp only [List.nil_append]
    rw [tagSplit, if_pos (by simp [List.isPrefixOf])]
    simp only [List.drop_succ_cons, List.drop_zero]
    rw [findSubTwo ':' ' ' (by decide) l0 subj hsubj]
    show some ([], (subj ++ ':' :: ' ' :: l0).take subj.length,
      (subj ++ ':' :: ' ' :: l0).drop (subj.length + 2)) = some ([], subj, l0)
    rw [List.take_left, dropTwoLeft]
  | cons c prod' ih =>
    intro ha
    simp only [containsSub, Bool.or_eq_false_iff] at ha
    rw [List.cons_append, tagSplit, if_neg ?hpre, ih ha.2]
    · rfl
    case hpre =>
      intro hcon
      cases prod' with
      | nil =>
        simp only [List.nil_append] at hcon
        simp [List.isPrefixOf] at hcon
      | cons d prod'' =>
        simp only [List.cons_append] at hcon
        simp [List.isPrefixOf] at hcon
        obtain ⟨h1, h2⟩ := hcon
        subst h1
        subst h2
        simp [List.isPrefixOf] at ha

open PodOcr

theorem skipWsCons (c : Char) (l : List Char) (h : jsonWs c = true) :
    skipWs (c :: l) = skipWs l := by
  simp [skipWs, h]

theorem skipWsNoWs (c : Char) (l : List Char) (h : jsonWs c = false) :
    skipWs (c :: l) = c :: l := by
  simp [skipWs, h]

theorem hexValHexDig (d : Nat) (h : d < 16) : hexVal (hexDig d) = some d := by
  interval_cases d <;> decide

theorem hex4Recon (n : Nat) (h : n < 65536) :
    ((n / 4096 % 16 * 16 + n / 256 % 16) * 16 + n / 16 % 16) * 16 + n % 16 = n := by
  omega

theorem parseStrAuxEscape (c : Char) (acc rest : List Char) :
    parseStrAux acc (escapeChar c ++ rest) = parseStrAux (c :: acc) rest := by
  by_cases h1 : c = '"'
  · subst h1; rfl
  by_cases h2 : c = '\\'
  · subst h2; rfl
  by_cases h3 : c = '\n'
  · subst h3; rfl
  by_cases h4 : c = '\t'
  · subst h4; rfl
  by_cases h5 : c = '\r'
  · subst h5; rfl
  by_cases h6 : c = '\x08'
  · subst h6; rfl
  by_cases h7 : c = '\x0c'
  · subst h7; rfl
  by_cases h8 : c.toNat < 32 || (126 < c.toNat && c.toNat < 65536)
  · -- the \uXXXX branch
    rw [escapeChar, if_neg h1, if_neg h2, if_neg h3, if_neg h4, if_neg h5,
      if_neg h6, if_neg h7, if_pos h8]
    have hlt : c.toNat < 65536 := by
      rcases Bool.or_eq_true _ _ |>.mp h8 with h | h
      · have := of_decide_eq_true h
        omega
      · rcases Bool.and_eq_true _ _ |>.mp h with ⟨_, h⟩
        exact of_decide_eq_true h
    simp only [hex4, List.cons_append, List.nil_append]
    rw [parseStrAux,
      hexValHexDig _ (Nat.mod_lt _ (by norm_num)),
      hexValHexDig _ (Nat.mod_lt _ (by norm_num)),
      hexValHexDig _ (Nat.mod_lt _ (by norm_num)),
      hexValHexDig _ (Nat.mod_lt _ (by norm_num))]
    show parseStrAux (Char.ofNat (((c.toNat / 4096 % 16 * 16 + c.toNat / 256 % 16) * 16 +
      c.toNat / 16 % 16) * 16 + c.toNat % 16) :: acc) rest = parseStrAux (c :: acc) rest
    rw [hex4Recon c.toNat hlt, Char.ofNat_toNat]
  · rw [escapeChar, if_neg h1, if_neg h2, if_neg h3, if_neg h4, if_neg h5,
      if_neg h6, if_neg h7, if_neg h8]
    simp only [List.cons_append, List.nil_append]
    have h32 : ¬(c.toNat < 32) := by
      intro hcon
      exact h8 (by simp [hcon])
    rw [parseStrAux.eq_def]
    split
    all_goals simp_all

theorem parseStrAuxEscL (cs : List Char) : ∀ (acc rest : List Char),
    parseStrAux acc (escL cs ++ '"' :: rest) = some (⟨acc.reverse ++ cs⟩, rest) := by
  induction cs with
  | nil =>
    intro acc rest
    simp [escL, parseStrAux]
  | cons c cs ih =>
    intro acc rest
    show parseStrAux acc ((escapeChar c ++ escL cs) ++ '"' :: rest) = _
    rw [List.append_assoc, parseStrAuxEscape, ih]
    simp

theorem numCharNotWs (c : Char) (h : jsonWs c = true) : numChar c = false := by
  simp only [jsonWs, Bool.or_eq_true, decide_eq_true_eq] at h
  rcases h with ((h | h) | h) | h <;> subst h <;> decide

theorem parseValRender (v : JVal) (hv : valOk v = true) (d : Char) (rest : List Char)
    (hd : numChar d = false) (hq : d ≠ '"') :
    parseVal (renderVal v ++ d :: rest) = some (v, d :: rest) := by
  cases v with
  | jnull => rfl
  | jstr s =>
    show parseVal ('"' :: ((escList s ++ ['"']) ++ d :: rest)) = _
    simp only [parseVal, escList, List.append_assoc, List.singleton_append]
    rw [parseStrAuxEscL]
    simp
  | jnum lit =>
    simp only [valOk, Bool.and_eq_true] at hv
    obtain ⟨hvalid, hall⟩ := hv
    have hne : lit.data ≠ [] := by
      intro hcon
      rw [hcon] at hvalid
      exact Bool.false_ne_true hvalid
    rw [parseVal.eq_def]
    split
    · -- matched '"' :: rest arm: impossible, head of lit is a numChar
      next heq =>
        exfalso
        cases hld : lit.data with
        | nil => exact hne hld
        | cons c0 cs0 =>
          rw [show renderVal (.jnum lit) = lit.data from rfl, hld] at heq
          simp only [List.cons_append] at heq
          have hc0 : c0 = '"' := by
            have := congrArg (fun l => l.head?) heq
            simpa using this
          have : numChar c0 = true := by
            rw [List.all_eq_true] at hall
            exact hall c0 (by rw [hld]; simp)
          rw [hc0] at this
          exact absurd this (by decide)
    · next heq =>
        exfalso
        cases hld : lit.data with
        | nil => exact hne hld
        | cons c0 cs0 =>
          rw [show renderVal (.jnum lit) = lit.data from rfl, hld] at heq
          simp only [List.cons_append] at heq
          have hc0 : c0 = 'n' := by
            have := congrArg (fun l => l.head?) heq
            simpa using this
          have : numChar c0 = true := by
            rw [List.all_eq_true] at hall
            exact hall c0 (by rw [hld]; simp)
          rw [hc0] at this
          exact absurd this (by decide)
    · -- the number arm
      have htake : List.takeWhile numChar (renderVal (.jnum lit) ++ d :: rest) = lit.data := by
        show List.takeWhile numChar (lit.data ++ d :: rest) = lit.data
        rw [List.takeWhile_append_of_pos (by
            intro a ha
            rw [List.all_eq_true] at hall
            exact hall a ha),
          List.takeWhile_cons_of_neg (by simp [hd])]
        simp
      have hemp : lit.data.isEmpty = false := by
        cases h : lit.data with
        | nil => exact absurd h hne
        | cons a l => rfl
      simp only [htake, hemp, hvalid, Bool.not_false, Bool.and_self, if_true]
      show some (JVal.jnum ⟨lit.data⟩, List.drop lit.data.length (lit.data ++ d :: rest)) =
        some (JVal.jnum lit, d :: rest)
      rw [List.drop_left]

theorem parseObjBodyWsSkip (f : Nat) (c : Char) (X : List Char) (h : jsonWs c = true) :
    parseObjBody f (c :: X) = parseObjBody f X := by
  cases f with
  | zero => rfl
  | succ f => rw [parseObjBody, parseObjBody, skipWsCons _ _ h]

theorem entryCharsEq (k : String) (v : JVal) (X : List Char) :
    entryChars k v ++ X = ' ' :: ' ' :: '"' :: (escL k.data ++ '"' :: ':' :: ' ' :: (renderVal v ++ X)) := by
  simp [entryChars, escList, List.append_assoc]

theorem skipWsRenderVal (v : JVal) (hv : valOk v = true) (X : List Char) :
    skipWs (renderVal v ++ X) = renderVal v ++ X := by
  cases v with
  | jnull => rfl
  | jstr s => rfl
  | jnum lit =>
    simp only [valOk, Bool.and_eq_true] at hv
    obtain ⟨hvalid, hall⟩ := hv
    cases hld : lit.data with
    | nil => rw [hld] at hvalid; exact absurd hvalid (by decide)
    | cons c0 cs0 =>
      show skipWs (lit.data ++ X) = lit.data ++ X
      rw [hld, List.cons_append]
      apply skipWsNoWs
      cases hjw : jsonWs c0
      · rfl
      · exfalso
        have hc : numChar c0 = true := by
          rw [List.all_eq_true] at hall
          exact hall c0 (by rw [hld]; simp)
        rw [numCharNotWs c0 hjw] at hc
        exact Bool.false_ne_true hc

theorem parseObjBodySingle (fuel : Nat) (k : String) (v : JVal) (tail : List Char)
    (hk : True) (hv : valOk v = true) :
    parseObjBody (fuel + 1) (entryChars k v ++ '\n' :: '}' :: tail) = some ([(k, v)], tail) := by
  rw [entryCharsEq]
  rw [parseObjBodyWsSkip _ _ _ (by decide), parseObjBodyWsSkip _ _ _ (by decide)]
  rw [parseObjBody, skipWsNoWs _ _ (by decide)]
  simp only [parseStrAuxEscL, List.reverse_nil, List.nil_append]
  rw [skipWsNoWs _ _ (by decide)]
  simp only [skipWsCons _ _ (by decide : jsonWs ' ' = true)]
  rw [skipWsRenderVal v hv]
  rw [parseValRender v hv '\n' ('}' :: tail) (by decide) (by decide)]
  simp only [skipWsCons _ _ (by decide : jsonWs '\n' = true)]
  rw [skipWsNoWs _ _ (by decide)]
  rfl

theorem parseObjBodyCons (fuel : Nat) (k : String) (v : JVal) (hv : valOk v = true)
    (Y : List Char) :
    parseObjBody (fuel + 1) (entryChars k v ++ ',' :: '\n' :: Y) =
      (match parseObjBody fuel ('\n' :: Y) with
       | some es => some ((k, v) :: es.1, es.2)
       | none => none) := by
  rw [entryCharsEq]
  rw [parseObjBodyWsSkip _ _ _ (by decide), parseObjBodyWsSkip _ _ _ (by decide)]
  rw [parseObjBody, skipWsNoWs _ _ (by decide)]
  simp only [parseStrAuxEscL, List.reverse_nil, List.nil_append]
  rw [skipWsNoWs _ _ (by decide)]
  simp only [skipWsCons _ _ (by decide : jsonWs ' ' = true)]
  rw [skipWsRenderVal v hv]
  rw [parseValRender v hv ',' ('\n' :: Y) (by decide) (by decide)]
  simp only [show ∀ l : List Char, skipWs (',' :: l) = ',' :: l from
    fun l => skipWsNoWs ',' l (by decide)]
  cases hp : parseObjBody fuel ('\n' :: Y) with
  | none => rfl
  | some es => rfl

theorem parseObjBodyRender (p : Payload) : ∀ (fuel : Nat) (tail : List Char),
    payloadOk p = true → p ≠ [] → p.length ≤ fuel + 1 →
    parseObjBody (fuel + 1) (bodyChars p ++ '}' :: tail) = some (p, tail) := by
  induction p with
  | nil =>
    intro fuel tail _ hne _
    exact absurd rfl hne
  | cons kv rest ih =>
    intro fuel tail hok hne hlen
    obtain ⟨k, v⟩ := kv
    simp only [payloadOk, List.all_cons, Bool.and_eq_true] at hok
    obtain ⟨⟨hkb, hv⟩, hrest⟩ := hok
    cases rest with
    | nil =>
      show parseObjBody (fuel + 1) ((entryChars k v ++ ['\n']) ++ '}' :: tail) = _
      rw [List.append_assoc, List.singleton_append]
      exact parseObjBodySingle fuel k v tail trivial hv
    | cons kv2 rest2 =>
      show parseObjBody (fuel + 1)
        ((entryChars k v ++ ',' :: '\n' :: bodyChars (kv2 :: rest2)) ++ '}' :: tail) = _
      rw [List.append_assoc, List.cons_append, List.cons_append]
      rw [parseObjBodyCons fuel k v hv _]
      cases fuel with
      | zero =>
        exfalso
        simp only [List.length_cons] at hlen
        omega
      | succ f =>
        rw [parseObjBodyWsSkip _ _ _ (by decide)]
        rw [ih f tail (by simpa [payloadOk] using hrest) (by simp) (by
          simp only [List.length_cons] at hlen ⊢
          omega)]

theorem bodyCharsLen (p : Payload) : p.length ≤ (bodyChars p).length := by
  induction p with
  | nil => simp [bodyChars]
  | cons kv rest ih =>
    cases rest with
    | nil => simp [bodyChars, entryChars]
    | cons kv2 rest2 =>
      show (kv :: kv2 :: rest2).length ≤ (entryChars kv.1 kv.2 ++ ',' :: '\n' :: bodyChars (kv2 :: rest2)).length
      simp only [List.length_cons, List.length_append, entryChars] at ih ⊢
      omega

theorem loadsChars (p : Payload) (hok : payloadOk p = true) (hne : p ≠ []) :
    loads ⟨'\x7b' :: (bodyChars p ++ '\x7d' :: '\n' :: [])⟩ = some p := by
  rw [loads]
  rw [show (⟨'\x7b' :: (bodyChars p ++ '\x7d' :: '\n' :: [])⟩ : String).data =
      '\x7b' :: (bodyChars p ++ '\x7d' :: '\n' :: []) from rfl]
  rw [skipWsNoWs _ _ (by decide)]
  have hfuel : (bodyChars p ++ '\x7d' :: '\n' :: []).length = (bodyChars p).length + 2 := by
    simp
  have hb := parseObjBodyRender p ((bodyChars p).length + 2) ('\n' :: []) hok hne
    (le_trans (bodyCharsLen p) (by omega))
  simp only [hfuel, hb]
  rfl

theorem joinBodyData (p : Payload) :
    (String.join ((bodyLines p).map (fun l => l ++ "\n"))).data = bodyChars p := by
  induction p with
  | nil => rfl
  | cons kv rest ih =>
    cases rest with
    | nil => simp [bodyLines, bodyChars, String.data_join]
    | cons kv2 rest2 =>
      show (String.join ((⟨entryChars kv.1 kv.2 ++ [',']⟩ :: bodyLines (kv2 :: rest2)).map
        (fun l => l ++ "\n"))).data = entryChars kv.1 kv.2 ++ ',' :: '\n' :: bodyChars (kv2 :: rest2)
      simp only [List.map_cons, String.data_join, List.map_map] at ih ⊢
      simp only [List.flatten_cons]
      rw [show ((fun l : String => l ++ "\n") ⟨entryChars kv.1 kv.2 ++ [',']⟩).data =
        entryChars kv.1 kv.2 ++ [',', '\n'] from by simp]
      rw [Function.comp_def] at ih ⊢
      rw [ih]
      simp

theorem hexDigNotBrace (d : Nat) (h : d < 16) : hexDig d ≠ '\x7b' ∧ hexDig d ≠ '\x7d' := by
  interval_cases d <;> exact ⟨by decide, by decide⟩

theorem escapeCharNoBrace (c : Char) (hc : c ≠ '\x7b' ∧ c ≠ '\x7d') :
    ∀ d ∈ escapeChar c, d ≠ '\x7b' ∧ d ≠ '\x7d' := by
  intro d hd
  by_cases h1 : c = '"'
  · subst h1
    rw [show escapeChar '"' = ['\\', '"'] from rfl] at hd
    fin_cases hd <;> exact ⟨by decide, by decide⟩
  by_cases h2 : c = '\\'
  · subst h2
    rw [show escapeChar '\\' = ['\\', '\\'] from rfl] at hd
    fin_cases hd <;> exact ⟨by decide, by decide⟩
  by_cases h3 : c = '\n'
  · subst h3
    rw [show escapeChar '\n' = ['\\', 'n'] from rfl] at hd
    fin_cases hd <;> exact ⟨by decide, by decide⟩
  by_cases h4 : c = '\t'
  · subst h4
    rw [show escapeChar '\t' = ['\\', 't'] from rfl] at hd
    fin_cases hd <;> exact ⟨by decide, by decide⟩
  by_cases h5 : c = '\r'
  · subst h5
    rw [show escapeChar '\r' = ['\\', 'r'] from rfl] at hd
    fin_cases hd <;> exact ⟨by decide, by decide⟩
  by_cases h6 : c = '\x08'
  · subst h6
    rw [show escapeChar '\x08' = ['\\', 'b'] from rfl] at hd
    fin_cases hd <;> exact ⟨by decide, by decide⟩
  by_cases h7 : c = '\x0c'
  · subst h7
    rw [show escapeChar '\x0c' = ['\\', 'f'] from rfl] at hd
    fin_cases hd <;> exact ⟨by decide, by decide⟩
  by_cases h8 : c.toNat < 32 || (126 < c.toNat && c.toNat < 65536)
  · rw [escapeChar, if_neg h1, if_neg h2, if_neg h3, if_neg h4, if_neg h5,
      if_neg h6, if_neg h7, if_pos h8] at hd
    simp only [hex4, List.mem_cons, List.not_mem_nil, or_false] at hd
    rcases hd with rfl | rfl | rfl | rfl | rfl | rfl
    · exact ⟨by decide, by decide⟩
    · exact ⟨by decide, by decide⟩
    · exact hexDigNotBrace _ (Nat.mod_lt _ (by norm_num))
    · exact hexDigNotBrace _ (Nat.mod_lt _ (by norm_num))
    · exact hexDigNotBrace _ (Nat.mod_lt _ (by norm_num))
    · exact hexDigNotBrace _ (Nat.mod_lt _ (by norm_num))
  · rw [escapeChar, if_neg h1, if_neg h2, if_neg h3, if_neg h4, if_neg h5,
      if_neg h6, if_neg h7, if_neg h8] at hd
    rw [List.mem_singleton] at hd
    subst hd
    exact hc

theorem escLNoBrace (cs : List Char) (h : ∀ c ∈ cs, c ≠ '\x7b' ∧ c ≠ '\x7d') :
    ∀ d ∈ escL cs, d ≠ '\x7b' ∧ d ≠ '\x7d' := by
  induction cs with
  | nil => intro d hd; simp [escL] at hd
  | cons c cs ih =>
    intro d hd
    show _
    rw [show escL (c :: cs) = escapeChar c ++ escL cs from rfl] at hd
    rcases List.mem_append.mp hd with h1 | h1
    · exact escapeCharNoBrace c (h c (by simp)) d h1
    · exact ih (fun x hx => h x (by simp [hx])) d h1

theorem numCharNotBrace (c : Char) (h : numChar c = true) : c ≠ '\x7b' ∧ c ≠ '\x7d' := by
  constructor
  · intro he; rw [he] at h; exact absurd h (by decide)
  · intro he; rw [he] at h; exact absurd h (by decide)

theorem noBraceStrMem (s : String) (hs : noBraceStr s = true) :
    ∀ c ∈ s.data, c ≠ '\x7b' ∧ c ≠ '\x7d' := by
  intro c hc
  rw [noBraceStr, List.all_eq_true] at hs
  have := hs c hc
  simp only [Bool.and_eq_true, decide_eq_true_eq] at this
  exact this

theorem renderValNoBrace (v : JVal) (hv : valOk v = true) :
    ∀ d ∈ renderVal v, d ≠ '\x7b' ∧ d ≠ '\x7d' := by
  intro d hd
  cases v with
  | jnull =>
    rw [show renderVal .jnull = ['n', 'u', 'l', 'l'] from rfl] at hd
    fin_cases hd <;> exact ⟨by decide, by decide⟩
  | jstr s =>
    rw [show renderVal (.jstr s) = '"' :: (escList s ++ ['"']) from rfl] at hd
    rcases List.mem_cons.mp hd with rfl | h1
    · exact ⟨by decide, by decide⟩
    rcases List.mem_append.mp h1 with h2 | h2
    · exact escLNoBrace s.data (noBraceStrMem s hv) d h2
    · rw [List.mem_singleton] at h2
      subst h2
      exact ⟨by decide, by decide⟩
  | jnum lit =>
    simp only [valOk, Bool.and_eq_true] at hv
    rw [show renderVal (.jnum lit) = lit.data from rfl] at hd
    rw [List.all_eq_true] at hv
    exact numCharNotBrace d (hv.2 d hd)

theorem entryCharsNoBrace (k : String) (v : JVal) (hk : noBraceStr k = true)
    (hv : valOk v = true) : ∀ d ∈ entryChars k v, d ≠ '\x7b' ∧ d ≠ '\x7d' := by
  intro d hd
  rw [show entryChars k v =
    ' ' :: ' ' :: '"' :: (escList k ++ ['"', ':', ' '] ++ renderVal v) from rfl] at hd
  rcases List.mem_cons.mp hd with rfl | hd1
  · exact ⟨by decide, by decide⟩
  rcases List.mem_cons.mp hd1 with rfl | hd2
  · exact ⟨by decide, by decide⟩
  rcases List.mem_cons.mp hd2 with rfl | hd3
  · exact ⟨by decide, by decide⟩
  rcases List.mem_append.mp hd3 with hd4 | hd4
  · rcases List.mem_append.mp hd4 with hd5 | hd5
    · exact escLNoBrace k.data (noBraceStrMem k hk) d hd5
    · fin_cases hd5 <;> exact ⟨by decide, by decide⟩
  · exact renderValNoBrace v hv d hd4

theorem braceCountNoBrace (s : String) (h : ∀ c ∈ s.data, c ≠ '\x7b' ∧ c ≠ '\x7d') :
    braceCount s = 0 := by
  rw [braceCount]
  rw [List.filter_eq_nil_iff.mpr (by intro a ha; simpa using (h a ha).1),
    List.filter_eq_nil_iff.mpr (by intro a ha; simpa using (h a ha).2)]
  rfl

theorem prefixMatchNotBracket (c : Char) (cs : List Char) (h : c ≠ '[') :
    prefixMatch ⟨c :: cs⟩ = none := by
  rw [prefixMatch.eq_def]
  split
  · next heq =>
      injection heq with h1 h2
      exact absurd h1 h
  · rfl

theorem bodyLinesProps (p : Payload) (hok : payloadOk p = true) :
    ∀ l ∈ bodyLines p, prefixMatch l = none ∧ braceCount l = 0 := by
  induction p with
  | nil => intro l hl; simp [bodyLines] at hl
  | cons kv rest ih =>
    intro l hl
    obtain ⟨k, v⟩ := kv
    simp only [payloadOk, List.all_cons, Bool.and_eq_true] at hok
    obtain ⟨⟨hkb, hv⟩, hrest⟩ := hok
    cases rest with
    | nil =>
      rw [show bodyLines [(k, v)] = [⟨entryChars k v⟩] from rfl] at hl
      rw [List.mem_singleton] at hl
      subst hl
      constructor
      · rw [show (⟨entryChars k v⟩ : String) = ⟨' ' :: (' ' :: '"' ::
          (escList k ++ ['"', ':', ' '] ++ renderVal v))⟩ from rfl]
        exact prefixMatchNotBracket _ _ (by decide)
      · exact braceCountNoBrace _ (entryCharsNoBrace k v hkb hv)
    | cons kv2 rest2 =>
      rw [show bodyLines ((k, v) :: kv2 :: rest2) =
        ⟨entryChars k v ++ [',']⟩ :: bodyLines (kv2 :: rest2) from rfl] at hl
      rcases List.mem_cons.mp hl with rfl | hl2
      · constructor
        · rw [show (⟨entryChars k v ++ [',']⟩ : String) = ⟨' ' :: ((' ' :: '"' ::
            (escList k ++ ['"', ':', ' '] ++ renderVal v)) ++ [','])⟩ from rfl]
          exact prefixMatchNotBracket _ _ (by decide)
        · apply braceCountNoBrace
          intro c hc
          rcases List.mem_append.mp hc with h1 | h1
          · exact entryCharsNoBrace k v hkb hv c h1
          · fin_cases h1; exact ⟨by decide, by decide⟩
      · exact ih (by simpa [payloadOk] using hrest) l hl2

theorem scanBodyLines (lines : List String) : ∀ (st : ScanState),
    st.inBlock = true → st.braces = 1 →
    (∀ l ∈ lines, prefixMatch l = none ∧ braceCount l = 0) →
    List.foldl scanStep st lines =
      ⟨st.results, true, bufAfter st.buf lines, 1⟩ := by
  induction lines with
  | nil =>
    intro st h1 h2 _
    cases st with
    | mk res inb buf br =>
      simp only [List.foldl_nil, bufAfter, List.map_nil]
      simp_all [String.ext_iff, String.data_join]
  | cons l ls ih =>
    intro st h1 h2 hprops
    rw [List.foldl_cons]
    have hstep : scanStep st l = ⟨st.results, true, st.buf ++ l ++ "\n", 1⟩ := by
      rw [scanStep, (hprops l (by simp)).1]
      rw [h1, (hprops l (by simp)).2, h2]
      norm_num
    rw [hstep, ih _ rfl rfl (fun x hx => hprops x (by simp [hx]))]
    have hbuf : bufAfter (st.buf ++ l ++ "\n") ls = bufAfter st.buf (l :: ls) := by
      apply String.ext
      simp [bufAfter, String.data_join, List.append_assoc]
    rw [hbuf]

theorem prefixMatchTagLine (prod subj l0 : String)
    (hp : prodOk prod = true) (hs : subjOk subj = true) :
    prefixMatch ("[" ++ prod ++ "] " ++ subj ++ ": " ++ l0) = some (prod, subj, l0) := by
  have hprod : containsSub [']', ' '] prod.data = false := by
    rw [prodOk, Bool.not_eq_true'] at hp
    exact hp
  have hsubj : containsSub [':', ' '] subj.data = false := by
    rw [subjOk, Bool.not_eq_true'] at hs
    exact hs
  have hdata : ("[" ++ prod ++ "] " ++ subj ++ ": " ++ l0).data =
      '[' :: (prod.data ++ ']' :: ' ' :: (subj.data ++ ':' :: ' ' :: l0.data)) := by
    simp [List.append_assoc]
  rw [prefixMatch.eq_def, hdata]
  simp only [tagSplitTag subj.data l0.data hsubj prod.data hprod]
  rfl

theorem scanBlockState (prod subj : String) (p : Payload)
    (hp : prodOk prod = true) (hs : subjOk subj = true) (hok : payloadOk p = true) :
    scanStates (serializeBlock prod subj p) = ⟨[p], false, "", 0⟩ := by
  cases p with
  | nil =>
    show scanStates [("[" ++ prod ++ "] " ++ subj ++ ": " ++ "\x7b\x7d")] = _
    rw [scanStates]
    simp only [List.foldl_cons, List.foldl_nil]
    rw [scanStep]
    simp only [prefixMatchTagLine prod subj "\x7b\x7d" hp hs]
    rfl
  | cons kv rest =>
    show scanStates (("[" ++ prod ++ "] " ++ subj ++ ": " ++ "\x7b") ::
      (bodyLines (kv :: rest) ++ ["\x7d"])) = _
    rw [scanStates, List.foldl_cons]
    have hstep1 : scanStep ScanState.init ("[" ++ prod ++ "] " ++ subj ++ ": " ++ "\x7b") =
        ⟨[], true, "\x7b", 1⟩ := by
      rw [scanStep]
      simp only [prefixMatchTagLine prod subj "\x7b" hp hs]
      rfl
    rw [hstep1, List.foldl_append]
    rw [scanBodyLines (bodyLines (kv :: rest)) ⟨[], true, "\x7b", 1⟩ rfl rfl
      (bodyLinesProps _ hok)]
    simp only [List.foldl_cons, List.foldl_nil]
    have hbuf : bufAfter "\x7b" (bodyLines (kv :: rest)) ++ "\x7d" ++ "\n" =
        (⟨'\x7b' :: (bodyChars (kv :: rest) ++ '\x7d' :: '\n' :: [])⟩ : String) := by
      apply String.ext
      rw [String.data_append, String.data_append]
      rw [show (bufAfter "\x7b" (bodyLines (kv :: rest))).data =
        '\x7b' :: (String.join ((bodyLines (kv :: rest)).map (fun l => l ++ "\n"))).data from rfl]
      rw [joinBodyData]
      simp
    have hstep2 : scanStep ⟨[], true, bufAfter "\x7b" (bodyLines (kv :: rest)), 1⟩ "\x7d" =
        ⟨[kv :: rest], false, "", 0⟩ := by
      rw [scanStep]
      rw [show prefixMatch "\x7d" = none from rfl]
      simp only [if_pos rfl]
      rw [if_pos (by decide)]
      rw [tryParse, hbuf, loadsChars (kv :: rest) hok (by simp)]
      rfl
    rw [hstep2]

theorem scanCapture (lines : List String) : ∀ (st : ScanState),
    st.inBlock = true →
    (∀ l ∈ lines, prefixMatch l = none) →
    neverBalances st.braces lines = true →
    List.foldl scanStep st lines =
      ⟨st.results, true, bufAfter st.buf lines, st.braces + bracesSum lines⟩ := by
  induction lines with
  | nil =>
    intro st h1 _ _
    cases st with
    | mk res inb buf br =>
      simp only [List.foldl_nil, bufAfter, List.map_nil, bracesSum]
      simp_all [String.ext_iff, String.data_join]
  | cons l ls ih =>
    intro st h1 hprops hnb
    rw [List.foldl_cons]
    rw [neverBalances] at hnb
    simp only [Bool.and_eq_true, decide_eq_true_eq] at hnb
    obtain ⟨hne, hnb2⟩ := hnb
    have hstep : scanStep st l =
        ⟨st.results, true, st.buf ++ l ++ "\n", st.braces + braceCount l⟩ := by
      rw [scanStep, hprops l (by simp)]
      rw [h1]
      simp [hne]
    rw [hstep, ih _ rfl (fun x hx => hprops x (by simp [hx])) hnb2]
    have hbuf : bufAfter (st.buf ++ l ++ "\n") ls = bufAfter st.buf (l :: ls) := by
      apply String.ext
      simp [bufAfter, String.data_join, List.append_assoc]
    have hbr : st.braces + braceCount l + bracesSum ls = st.braces + bracesSum (l :: ls) := by
      simp only [bracesSum, List.map_cons, List.sum_cons]
      ring
    rw [hbuf, hbr]

theorem tryParseExtend (buf : String) (rs : List Payload) :
    ∃ t, tryParse buf rs = rs ++ t := by
  rw [tryParse]
  cases loads buf with
  | some p => exact ⟨[p], rfl⟩
  | none => exact ⟨[], by simp⟩

theorem scanStepExtend (st : ScanState) (l : String) :
    ∃ t, (scanStep st l).results = st.results ++ t := by
  rw [scanStep]
  cases prefixMatch l with
  | none =>
    dsimp only
    split_ifs with h1 h2
    · exact tryParseExtend _ _
    · exact ⟨[], by simp⟩
    · exact ⟨[], by simp⟩
  | some g =>
    dsimp only
    split_ifs with h1 h2 h3
    · obtain ⟨t1, ht1⟩ := tryParseExtend st.buf st.results
      obtain ⟨t2, ht2⟩ := tryParseExtend g.2.2 (tryParse st.buf st.results)
      exact ⟨t1 ++ t2, by rw [ht2, ht1, List.append_assoc]⟩
    · exact tryParseExtend _ _
    · exact tryParseExtend _ _
    · exact ⟨[], by simp⟩

theorem scanFoldExtend (lines : List String) : ∀ (st : ScanState),
    ∃ t, (List.foldl scanStep st lines).results = st.results ++ t := by
  induction lines with
  | nil => intro st; exact ⟨[], by simp⟩
  | cons l ls ih =>
    intro st
    obtain ⟨t1, h1⟩ := scanStepExtend st l
    obtain ⟨t2, h2⟩ := ih (scanStep st l)
    exact ⟨t1 ++ t2, by rw [List.foldl_cons, h2, h1, List.append_assoc]⟩

/-! ## Claim theorems: field extraction -/

/-- C1: For every `ExtractionResult` constructed by `extract_numbers` (any
back-end variant, including the exception and timeout paths), if the error
field is non-null then `street_number`, `street_name` and `unit_number` are
all null and `confidence` equals 0.0. -/
theorem claim_C1_error_implies_null_fields :
    ∀ (pr : PaddleOcrRun) (gr : GotOcrRun) (er : EasyOcrRun) (tr : TrocrRun)
      (threshold : ℚ) (path : String) (elapsed : ℚ),
      errFieldsInv (paddleExtract pr threshold path elapsed) ∧
      errFieldsInv (gotExtract gr path elapsed) ∧
      errFieldsInv (easyExtract er threshold path elapsed) ∧
      errFieldsInv (trocrExtract tr path elapsed) := by
  intro pr gr er tr threshold path elapsed
  refine ⟨?_, ?_, ?_, ?_⟩
  · cases pr <;> intro h
    case raised msg => exact ⟨rfl, rfl, rfl, rfl⟩
    case noResult => exact absurd rfl h
    case pages toks => exact absurd rfl h
  · cases gr <;> intro h
    case timeout => exact ⟨rfl, rfl, rfl, rfl⟩
    case raised msg => exact ⟨rfl, rfl, rfl, rfl⟩
    case generated res =>
      exfalso
      apply h
      by_cases hr : res = "" <;> simp [gotExtract, hr]
  · cases er <;> intro h
    case raised msg => exact ⟨rfl, rfl, rfl, rfl⟩
    case noResult => exact absurd rfl h
    case items toks => exact absurd rfl h
  · cases tr <;> intro h
    case raised msg => exact ⟨rfl, rfl, rfl, rfl⟩
    case generated res => exact absurd rfl h

/-- Closed witness for C1: a concrete back-end exception yields an error
record with all three address fields null and zero confidence. -/
theorem claim_C1_error_implies_null_fields_witness :
    ((paddleExtract (.raised "boom") 1 "img.jpg" 1).street_number = none ∧
     (paddleExtract (.raised "boom") 1 "img.jpg" 1).street_name = none ∧
     (paddleExtract (.raised "boom") 1 "img.jpg" 1).unit_number = none ∧
     (paddleExtract (.raised "boom") 1 "img.jpg" 1).confidence = 0) ∧
    ((gotExtract .timeout "img.jpg" 1).street_number = none ∧
     (gotExtract .timeout "img.jpg" 1).street_name = none ∧
     (gotExtract .timeout "img.jpg" 1).unit_number = none ∧
     (gotExtract .timeout "img.jpg" 1).confidence = 0) ∧
    ((easyExtract (.raised "e") 1 "img.jpg" 1).street_number = none ∧
     (easyExtract (.raised "e") 1 "img.jpg" 1).street_name = none ∧
     (easyExtract (.raised "e") 1 "img.jpg" 1).unit_number = none ∧
     (easyExtract (.raised "e") 1 "img.jpg" 1).confidence = 0) ∧
    ((trocrExtract (.raised "t") "img.jpg" 1).street_number = none ∧
     (trocrExtract (.raised "t") "img.jpg" 1).street_name = none ∧
     (trocrExtract (.raised "t") "img.jpg" 1).unit_number = none ∧
     (trocrExtract (.raised "t") "img.jpg" 1).confidence = 0) :=
  ⟨(claim_C1_error_implies_null_fields (.raised "boom") .timeout (.raised "e")
      (.raised "t") 1 "img.jpg" 1).1 (by decide),
   (claim_C1_error_implies_null_fields (.raised "boom") .timeout (.raised "e")
      (.raised "t") 1 "img.jpg" 1).2.1 (by decide),
   (claim_C1_error_implies_null_fields (.raised "boom") .timeout (.raised "e")
      (.raised "t") 1 "img.jpg" 1).2.2.1 (by decide),
   (claim_C1_error_implies_null_fields (.raised "boom") .timeout (.raised "e")
      (.raised "t") 1 "img.jpg" 1).2.2.2 (by decide)⟩

/-- C9: `extract_numbers` never raises: every exception thrown inside
recognition (and the got-ocr watchdog timeout) is converted at the
result-assembly boundary into an `ExtractionResult` whose error field is
set and whose three address fields are null, in every back-end variant.
(In the embedding the back-end exception is the `raised` input; the
functions are total, so no exception escapes.) -/
theorem claim_C9_never_raises :
    ∀ (msg : String) (threshold : ℚ) (path : String) (elapsed : ℚ),
      ((paddleExtract (.raised msg) threshold path elapsed).error = some msg ∧
       (paddleExtract (.raised msg) threshold path elapsed).street_number = none ∧
       (paddleExtract (.raised msg) threshold path elapsed).street_name = none ∧
       (paddleExtract (.raised msg) threshold path elapsed).unit_number = none) ∧
      ((gotExtract (.raised msg) path elapsed).error = some msg ∧
       (gotExtract (.raised msg) path elapsed).street_number = none ∧
       (gotExtract (.raised msg) path elapsed).street_name = none ∧
       (gotExtract (.raised msg) path elapsed).unit_number = none) ∧
      ((gotExtract .timeout path elapsed).error = some "Timeout after 30s" ∧
       (gotExtract .timeout path elapsed).street_number = none ∧
       (gotExtract .timeout path elapsed).street_name = none ∧
       (gotExtract .timeout path elapsed).unit_number = none) ∧
      ((easyExtract (.raised msg) threshold path elapsed).error = some msg ∧
       (easyExtract (.raised msg) threshold path elapsed).street_number = none ∧
       (easyExtract (.raised msg) threshold path elapsed).street_name = none ∧
       (easyExtract (.raised msg) threshold path elapsed).unit_number = none) ∧
      ((trocrExtract (.raised msg) path elapsed).error = some msg ∧
       (trocrExtract (.raised msg) path elapsed).street_number = none ∧
       (trocrExtract (.raised msg) path elapsed).street_name = none ∧
       (trocrExtract (.raised msg) path elapsed).unit_number = none) := by
  intro msg threshold path elapsed
  exact ⟨⟨rfl, rfl, rfl, rfl⟩, ⟨rfl, rfl, rfl, rfl⟩, ⟨rfl, rfl, rfl, rfl⟩,
    ⟨rfl, rfl, rfl, rfl⟩, ⟨rfl, rfl, rfl, rfl⟩⟩

/-- C5 (amended): only the got-ocr variant obtains the unit number by
searching the full generated text for `(Apt|Unit|#|Suite)\s*(\d+[A-Z]?)`
case-insensitively, returning the entire matched span; "Delivered to Apt 5B"
yields "Apt 5B" and "Floor 2" yields null.  (The paddleocr and easyocr
variants apply the same pattern per token instead — see the
counterexample.) -/
theorem claim_C5_unit_number_full_text :
    ∀ (res : String) (path : String) (elapsed : ℚ),
      (gotExtract (.generated res) path elapsed).unit_number = parse_unit_number res ∧
      parse_unit_number "Delivered to Apt 5B" = some "Apt 5B" ∧
      parse_unit_number "Floor 2" = none := by
  intro res path elapsed
  refine ⟨?_, by decide, by decide⟩
  by_cases hr : res = ""
  · subst hr
    simp [gotExtract]
    decide
  · simp only [gotExtract, if_neg hr]
    rw [classifyGotUn]
    rfl

/-- Counterexample to C5 as stated: in the paddleocr variant the unit
pattern is applied to the individual candidates, so the token pair
`["Apt", "5B"]` yields no unit number even though the full reconstructed
text "Apt 5B" matches the pattern. -/
theorem claim_C5_unit_number_full_text_counterexample :
    (paddleExtract (.pages [("Apt", 1), ("5B", 1)]) 1 "img.jpg" 1).unit_number = none ∧
    parse_unit_number (joinSpaces ["Apt", "5B"]) = some "Apt 5B" := by
  constructor
  · rfl
  · decide

/-- C6 (amended): the street number is the first candidate of the
threshold-filtered, run-merged sequence matching `^\d{1,5}[A-Z]?$`
case-insensitively after whitespace strip ("123A" qualifies, "123456"
never does, later numeric tokens are ignored); the detached suffix letter
is taken from the immediately following candidate of that same filtered
merged sequence (not of the unfiltered token sequence — see the
counterexample); the eligible sequence `["17","a","Main"]` resolves to
"17a". -/
theorem claim_C6_street_number_rule :
    ∀ (cands : List String),
      (classifyPaddle cands ClassAcc.init).sn = firstStreetNumber cands ∧
      parse_street_number "123A" = some "123A" ∧
      parse_street_number "123456" = none ∧
      parse_street_number "  123  " = some "123" ∧
      (paddleExtract (.pages [("17", 1), ("a", 1), ("Main", 1)]) 1
        "img.jpg" 1).street_number = some "17a" := by
  intro cands
  refine ⟨?_, by decide, by decide, by decide, by rfl⟩
  rw [classifyPaddleSn]
  rfl

/-- Counterexample to C6 as stated: a sub-threshold confidence on the
token "a" filters it out before the merge, so the suffix letter the claim
reads from the "full unfiltered-by-threshold sequence" is not appended: the
code yields "17", the claimed rule would yield "17a". -/
theorem claim_C6_street_number_rule_counterexample :
    (paddleExtract (.pages [("17", 1), ("a", 0), ("Main", 1)])
      1 "img.jpg" 1).street_number = some "17" ∧
    suffixAttach "17" ["a", "Main"] = "17a" ∧
    some "17" ≠ some ("17a" : String) := by
  refine ⟨by rfl, by decide, by decide⟩

/-- C7 (amended): in the paddleocr and got-ocr variants, normalization
replaces each run of consecutive all-caps alphabetic (punctuation-stripped)
tokens by the run joined with single spaces at the run's position, other
tokens passing through (stripped) and flushing the pending run;
`["NELS","ON","S","68"]` yields `["NELS ON S","68"]`.  (The easyocr and
trocr variants perform no run merge — see the counterexample.) -/
theorem claim_C7_caps_run_merge :
    ∀ (ts : List String),
      combinedTexts ts = mergeRuns (ts.map cleanToken) ∧
      combinedTexts ["NELS", "ON", "S", "68"] = ["NELS ON S", "68"] := by
  intro ts
  constructor
  · rw [combinedTexts, combineCapsMerge ts [] (by simp), List.nil_append]
  · decide

/-- Counterexample to C7 as stated ("every recognizer variant"): the easyocr
variant classifies the raw threshold-filtered tokens with no merge pass, so
its candidate sequence for `["NELS","ON","S","68"]` is the unmerged list;
observably, for `["OAK","ST"]` easyocr produces street name "ST" where the
merged candidate would have produced "OAK ST". -/
theorem claim_C7_caps_run_merge_counterexample :
    easyCandidates [("NELS", 1), ("ON", 1), ("S", 1), ("68", 1)] 1 =
      ["NELS", "ON", "S", "68"] ∧
    (["NELS", "ON", "S", "68"] : List String) ≠ ["NELS ON S", "68"] ∧
    (easyExtract (.items [("OAK", 1), ("ST", 1)]) 1 "img.jpg" 1).street_name =
      some "ST" ∧
    parse_street_name "OAK ST" = some "OAK ST" := by
  refine ⟨by decide, by decide, by rfl, by decide⟩

/-- C8 (amended): in the paddleocr/got-ocr variants a candidate contributes
a street-name fragment (the whitespace-stripped token) iff it contains a
street-type word as case-insensitive substring, or it matches one of the
three proper-noun shapes and is not, compared case-insensitively, in the
stop-word set; accepted fragments are joined with single spaces in
encounter order and the field is null when none qualifies.  The easyocr and
trocr variants accept only the street-type rule and the Title-case shape
with the Title-cased stop list. -/
theorem claim_C8_street_name_rule :
    ∀ (toks : List (String × ℚ)) (threshold : ℚ) (path : String) (elapsed : ℚ)
      (t : String),
      (paddleExtract (.pages toks) threshold path elapsed).street_name =
        joinNames ((combinedTexts (toks.filterMap
          (fun ts => if threshold ≤ ts.2 then some ts.1 else none))).filterMap
            parse_street_name) ∧
      parse_street_name t = streetNameFragment t ∧
      parse_street_name_easy t = streetNameFragmentEasy t := by
  intro toks threshold path elapsed t
  refine ⟨?_, parse_street_name_eq_fragment t, parse_street_name_easy_eq_fragment t⟩
  simp only [paddleExtract]
  rw [classifyPaddleNames]
  rfl

/-- Counterexample to C8 as stated ("in every back-end variant"): "MAIN" is
all-uppercase with at least 3 letters and not a stop word, so the claim
makes it a fragment in every variant; the easyocr/trocr
`parse_street_name` rejects it (Title-case only), while the paddleocr
variant accepts it. -/
theorem claim_C8_street_name_rule_counterexample :
    parse_street_name_easy "MAIN" = none ∧
    capsShape "MAIN".data = true ∧
    upperStopWords.contains (upperStr "MAIN") = false ∧
    parse_street_name "MAIN" = some "MAIN" := by
  refine ⟨by decide, by decide, by decide, by decide⟩

/-! ## Claim theorems: log reconciliation -/

/-- C2: last-write-wins reconciliation.  For every scanned log, the
`unique_results` aggregation holds, per (model, filename) key, exactly the
last emitted payload with that key; replaying the same log twice through
the scanner into the aggregator yields the identical map, and the
resume-index key set of a doubled log has the same membership as that of
the log itself. -/
theorem claim_C2_last_write_wins :
    ∀ (log : List String) (k : Option JVal × Option JVal) (rk : String × String),
      aggState (scanLog log ++ scanLog log) = aggState (scanLog log) ∧
      aggState (scanLog log) k =
        ((scanLog log).filter (fun r => decide (keyOf r = k))).getLast? ∧
      (rk ∈ resumeKeys (log ++ log) ↔ rk ∈ resumeKeys log) := by
  intro log k rk
  refine ⟨aggStateIdem (scanLog log), aggStateChar (scanLog log) k, ?_⟩
  simp [resumeKeys, List.filterMap_append]

/-- C10: the resume index marks a (producer, subject) key for every line
whose prefix matches the tag pattern, without consulting the payload: a
subject whose only entry is the truncated line `"[m] f: {"` is present in
the resume index (in both batch-driver variants) and thus skipped on the
next run, even though the scanner emits no entry for it. -/
theorem claim_C10_resume_marks_unparsed_entries :
    (∀ (log : List String) (line : String) (mf : String × String),
        line ∈ log → resumeKey line = some mf → mf ∈ resumeKeys log) ∧
    resumeKeys ["[m] f: \x7b"] = [("m", "f")] ∧
    scanLog ["[m] f: \x7b"] = [] ∧
    combinedKey "[m] f: \x7b" = some ("m", "f") := by
  refine ⟨?_, by decide, by decide, by decide⟩
  intro log line mf hline hkey
  exact List.mem_filterMap.mpr ⟨line, hline, hkey⟩

/-- Closed witness for C10: the universally quantified conjunct applied to
the concrete truncated log line. -/
theorem claim_C10_resume_marks_unparsed_entries_witness :
    ("m", "f") ∈ resumeKeys ["[m] f: \x7b"] :=
  claim_C10_resume_marks_unparsed_entries.1 ["[m] f: \x7b"] "[m] f: \x7b"
    ("m", "f") (by decide) (by decide)


/-- C4 (amended): serializing a payload as a tagged block — the
`[producer] subject: ` prefix glued to the first line of the indent-2
pretty-printed JSON, remaining lines verbatim — and re-scanning the lines
through the brace-counting scanner yields exactly the original payload,
provided the producer contains no `"] "`, the subject contains no `": "`,
and no serialized key or string value contains a brace character (number
values being well-formed literals). -/
theorem claim_C4_round_trip (prod subj : String) (p : Payload)
    (hp : prodOk prod = true) (hs : subjOk subj = true)
    (hok : payloadOk p = true) :
    scanLog (serializeBlock prod subj p) = [p] := by
  rw [scanLog, scanBlockState prod subj p hp hs hok]
  simp

/-- Closed witness for C4: a concrete two-field payload round-trips. -/
theorem claim_C4_round_trip_witness :
    prodOk "model" = true ∧ subjOk "img.jpg" = true ∧
    payloadOk [("street_number", JVal.jstr "123"),
      ("confidence", JVal.jnum "0.95")] = true ∧
    scanLog (serializeBlock "model" "img.jpg"
      [("street_number", JVal.jstr "123"), ("confidence", JVal.jnum "0.95")]) =
      [[("street_number", JVal.jstr "123"), ("confidence", JVal.jnum "0.95")]] :=
  ⟨by decide, by decide, by decide,
    claim_C4_round_trip "model" "img.jpg"
      [("street_number", JVal.jstr "123"), ("confidence", JVal.jnum "0.95")]
      (by decide) (by decide) (by decide)⟩

/-- C4 counterexample to the unconditional claim: a payload whose string
value is the single closing-brace character serializes to a block whose
running brace count never returns to zero, so the scanner emits no entry
at all: the round trip loses the payload instead of reproducing it. -/
theorem claim_C4_round_trip_counterexample :
    scanLog (serializeBlock "m" "f.jpg" [("error", JVal.jstr "\x7d")]) = [] ∧
    scanLog (serializeBlock "m" "f.jpg" [("error", JVal.jstr "\x7d")]) ≠
      [[("error", JVal.jstr "\x7d")]] := by
  refine ⟨by decide, by decide⟩

/-- C3 (amended): after a well-formed tagged block, a trailing tagged line
whose JSON part is brace-unbalanced, followed by non-tag lines that never
return the running count to zero, leaves the scanner in an open block at
end of stream; if the accumulated buffer fails to parse, the best-effort
final parse drops it and exactly the first payload is emitted. Moreover
scanning always continues: whatever lines follow, the emitted list only
extends (no exception truncates it). -/
theorem claim_C3_truncated_block_dropped
    (prod subj : String) (p : Payload) (prod2 subj2 j0 : String)
    (ts : List String)
    (hp : prodOk prod = true) (hs : subjOk subj = true)
    (hok : payloadOk p = true)
    (hp2 : prodOk prod2 = true) (hs2 : subjOk subj2 = true)
    (hts : ∀ l ∈ ts, prefixMatch l = none)
    (hbc : braceCount j0 ≠ 0)
    (hnb : neverBalances (braceCount j0) ts = true)
    (hfail : loads (bufAfter j0 ts) = none) :
    scanLog (serializeBlock prod subj p ++
      (("[" ++ prod2 ++ "] " ++ subj2 ++ ": " ++ j0) :: ts)) = [p] ∧
    ∀ ext : List String, ∃ tail,
      (scanStates ((serializeBlock prod subj p ++
        (("[" ++ prod2 ++ "] " ++ subj2 ++ ": " ++ j0) :: ts)) ++ ext)).results =
        [p] ++ tail := by
  have hmatch2 := prefixMatchTagLine prod2 subj2 j0 hp2 hs2
  have hstep1 : scanStep ⟨[p], false, "", 0⟩
      ("[" ++ prod2 ++ "] " ++ subj2 ++ ": " ++ j0) =
      ⟨[p], true, j0, braceCount j0⟩ := by
    rw [scanStep]
    simp only [hmatch2]
    simp [hbc]
  have hfold : scanStates (serializeBlock prod subj p ++
      (("[" ++ prod2 ++ "] " ++ subj2 ++ ": " ++ j0) :: ts)) =
      ⟨[p], true, bufAfter j0 ts, braceCount j0 + bracesSum ts⟩ := by
    rw [scanStates, List.foldl_append]
    rw [show List.foldl scanStep ScanState.init (serializeBlock prod subj p) =
      scanStates (serializeBlock prod subj p) from rfl]
    rw [scanBlockState prod subj p hp hs hok]
    rw [List.foldl_cons, hstep1]
    exact scanCapture ts _ rfl hts hnb
  constructor
  · rw [scanLog, hfold]
    by_cases hbuf : bufAfter j0 ts = ""
    · simp [hbuf]
    · rw [if_pos ⟨rfl, hbuf⟩]
      simp only [tryParse, hfail]
  · intro ext
    obtain ⟨tail, htail⟩ := scanFoldExtend ext
      (scanStates (serializeBlock prod subj p ++
        (("[" ++ prod2 ++ "] " ++ subj2 ++ ": " ++ j0) :: ts)))
    refine ⟨tail, ?_⟩
    rw [scanStates, List.foldl_append]
    rw [show List.foldl scanStep ScanState.init (serializeBlock prod subj p ++
      (("[" ++ prod2 ++ "] " ++ subj2 ++ ": " ++ j0) :: ts)) =
      scanStates (serializeBlock prod subj p ++
        (("[" ++ prod2 ++ "] " ++ subj2 ++ ": " ++ j0) :: ts)) from rfl]
    rw [htail, hfold]

/-- Closed witness for C3: one well-formed block followed by a lone
truncated tag line yields exactly the first payload. -/
theorem claim_C3_truncated_block_dropped_witness :
    scanLog (serializeBlock "m" "a" [("x", JVal.jnum "1")] ++
      (("[" ++ "m" ++ "] " ++ "b" ++ ": " ++ "\x7b") :: [])) =
      [[("x", JVal.jnum "1")]] :=
  (claim_C3_truncated_block_dropped "m" "a" [("x", JVal.jnum "1")] "m" "b"
    "\x7b" [] (by decide) (by decide) (by decide) (by decide) (by decide)
    (by simp) (by decide) (by decide) (by decide)).1

/-- C3 counterexample to the unqualified claim: the brace counter is blind
to braces inside JSON strings, so a trailing one-line block that is
brace-unbalanced by count yet valid JSON is not dropped: the end-of-stream
parse emits it, and the scan of a well-formed block followed by this
truncated-looking block yields two entries, not one. -/
theorem claim_C3_truncated_block_dropped_counterexample :
    braceCount "\x7b\"a\": \"\x7b\"\x7d" ≠ 0 ∧
    scanLog ["[m] a: \x7b", "\"x\": 1\x7d", "[m] b: \x7b\"a\": \"\x7b\"\x7d"] =
      [[("x", JVal.jnum "1")], [("a", JVal.jstr "\x7b")]] := by
  refine ⟨by decide, by decide⟩

end PodOcr
